import Mathlib

/-!
Verification of the `iso` isolated container-environment tool.

This file shallowly embeds the parts of the Go sources that the verified
properties are about: the pure naming and path functions, the session
resolver, the in-container supervisor (`in-env run`), and a state-passing
model of the container-engine operations together with the lifecycle
reconciler (ensure/start/stop/run) and the orphan garbage collector.

The container engine is modelled as an explicit `DockerState` value; every
engine primitive from `docker.go` becomes a total function on that state
(the model assumes the engine itself does not fail), and every mutating
create/build call is recorded in a log so that idempotency claims about
call counts can be stated.  A few docker-client helpers
(`listProjectContainers`, `stopAndRemoveContainer`, `listDanglingVolumes`,
`listIsoContainers`) are called by the sources but their definitions are
not part of the source tree; they are modelled from the specification and
marked as such in their doc comments.
-/

namespace Iso

/-! ## String helpers mirroring the Go standard library -/

/-- Go `strings.HasPrefix(s, pre)`: byte-wise prefix test, embedded on
character lists. -/
def goHasPrefix (s pre : String) : Bool := pre.data.isPrefixOf s.data

/-- Go `strings.Trim(path, "/")` on character lists: strip all leading and
trailing slash characters. -/
def trimSlashes (l : List Char) : List Char :=
  ((l.dropWhile (· = '/')).reverse.dropWhile (· = '/')).reverse

/-- Go `strings.Join(l, "/")`, tail part: each further element is preceded
by one separator. -/
def joinRest : List String → String
  | [] => ""
  | s :: rest => "/" ++ s ++ joinRest rest

/-- Go `strings.Join(l, "/")`. -/
def joinSegs : List String → String
  | [] => ""
  | s :: rest => s ++ joinRest rest

/-- Splitting a character list on one separator character (the
accumulator holds the current field, reversed). -/
def splitCharAux (sep : Char) : List Char → List Char → List (List Char)
  | [], acc => [acc.reverse]
  | c :: rest, acc =>
    if c = sep then acc.reverse :: splitCharAux sep rest []
    else splitCharAux sep rest (c :: acc)

/-- Go `strings.Split(s, sep)` for a one-character separator: the
fields between the separators, in order; the empty string yields one
empty field. -/
def splitChar (sep : Char) (s : String) : List String :=
  (splitCharAux sep s.data []).map String.mk

/-! ## Naming (container.go `getVolumeNameForPath`, `getCacheVolumeNameForPath`) -/

/-- The path sanitization used for volume names
(container.go lines 160-178): trim leading/trailing `/`, replace the
remaining `/` by `-`. -/
def sanitizePath (path : String) : String :=
  String.mk ((trimSlashes path.data).map (fun c => if c = '/' then '-' else c))

/-- container.go `getVolumeNameForPath`: session-scoped volume name. -/
def getVolumeNameForPath (worktreeProjectName session path : String) : String :=
  if session = "default" then
    worktreeProjectName ++ "-" ++ sanitizePath path
  else
    worktreeProjectName ++ "-" ++ session ++ "-" ++ sanitizePath path

/-- container.go `getCacheVolumeNameForPath`: cache volume name, scoped by
the base project only. -/
def getCacheVolumeNameForPath (baseProjectName path : String) : String :=
  baseProjectName ++ "-cache-" ++ sanitizePath path

/-! ## Session resolution (main command file, `getSession`) -/

/-- `getSession` from the CLI: an explicit `--session` flag wins, then a
non-empty `ISO_SESSION` environment value, otherwise a freshly generated
ephemeral id `eph-` + random token; only the generated case is marked
ephemeral.  `randToken` stands for the base64 encoding of the 8 random
bytes. -/
def getSession (flagValue envSession randToken : String) : String × Bool :=
  if flagValue ≠ "" then (flagValue, false)
  else if envSession ≠ "" then (envSession, false)
  else ("eph-" ++ randToken, true)

/-! ## Working-directory mapping (container.go `runCommand`, lines 586-618) -/

/-- Segments of a cleaned Unix path: split on `/` and drop empty parts. -/
def splitSegs (p : String) : List String := (splitChar '/' p).filter (· ≠ "")

/-- Segment-level core of Go `filepath.Rel` for two cleaned absolute
paths: strip the common prefix, then one `..` per remaining base segment
followed by the remaining target segments. -/
def relSegs : List String → List String → List String
  | [], ts => ts
  | b :: bs, [] => (b :: bs).map (fun _ => "..")
  | b :: bs, t :: ts =>
    if b = t then relSegs bs ts
    else (b :: bs).map (fun _ => "..") ++ t :: ts

/-- Go `filepath.Rel(basepath, targpath)` for cleaned absolute paths. -/
def relPathOf (basepath targpath : String) : String :=
  let r := relSegs (splitSegs basepath) (splitSegs targpath)
  if r = [] then "." else joinSegs r

/-- Go `filepath.IsAbs` on Unix: the path starts with `/`. -/
def isAbs (p : String) : Bool := goHasPrefix p "/"

/-- Go `filepath.Join(dir, rel)` for a cleaned absolute `dir` and a clean
relative path `rel`; in that case `Join` is plain concatenation with one
separator. -/
def joinPath (dir rel : String) : String := dir ++ "/" ++ rel

/-- The in-container working-directory computation of `runCommand`
(container.go lines 586-618): map the caller's offset from the mount root
onto the configured workdir; an offset that is `.`, absolute, or begins
with `..` falls back to the configured workdir itself. -/
def computeWorkDir (cfgWorkDir mountRoot cwd : String) : String :=
  let relPath := relPathOf mountRoot cwd
  if relPath ≠ "." ∧ isAbs relPath = false ∧ relPath ≠ ".." ∧
      goHasPrefix relPath ".." = false then
    joinPath cfgWorkDir relPath
  else cfgWorkDir

/-! ## The in-container supervisor (`in-env run` in the main command file) -/

/-- The retry bound of `waitForServices`: 30 one-second connection
attempts per service. -/
def maxAttempts : Nat := 30

/-- One service's readiness loop: attempts `1..maxAttempts` against the
address; ready iff some attempt connects.  `reach a` tells whether the
TCP dial of attempt `a` succeeds. -/
def serviceReady (reach : Nat → Bool) : Bool :=
  (List.range maxAttempts).any (fun i => reach (i + 1))

/-- `waitForServices` from the main command file: the `ISO_SERVICES`
value is split on `,`; each entry must be `host:port`; each service is
dialled at `host:port` with bounded retries.  `reach` gives, per address
and attempt number, whether the dial succeeds. -/
def waitForServicesLoop (reach : String → Nat → Bool) :
    List String → Except String Unit
  | [] => .ok ()
  | spec :: rest =>
    match splitChar ':' spec with
    | [host, port] =>
      if serviceReady (reach (host ++ ":" ++ port)) then
        waitForServicesLoop reach rest
      else
        .error ("service " ++ host ++ " not ready after 30 attempts")
    | _ => .error ("invalid service spec: " ++ spec)

/-- `waitForServices` on the raw `ISO_SERVICES` string. -/
def waitForServices (isoServices : String) (reach : String → Nat → Bool) :
    Except String Unit :=
  waitForServicesLoop reach (splitChar ',' isoServices)

/-- Observable outcome of one `iso in-env run` invocation: the process
exit code of the wrapper (after `main` maps an `ExitError` to its code
and any other error to 1), and whether the pre-run hook and the main
command were executed. -/
structure InEnvOutcome where
  exitCode : Nat
  ranPreHook : Bool
  ranMain : Bool
  svcTimeout : Bool
deriving DecidableEq

/-- The `in-env run` handler.  `preRunExit = some c` means
`.iso/pre-run.sh` exists and exits with code `c` (`none`: absent);
`mainExit` is the user command's exit code; `postRunExit` likewise
describes `.iso/post-run.sh`.  Service readiness is waited for only when
`ISO_SERVICES` is non-empty; a readiness failure aborts before the
pre-run hook and the main command; a pre-run failure aborts with the
pre-run's code; the post-run result is logged only and never alters the
exit code. -/
def inEnvRun (command : List String) (isoServices : String)
    (reach : String → Nat → Bool) (preRunExit : Option Nat) (mainExit : Nat)
    (postRunExit : Option Nat) : InEnvOutcome :=
  if command = [] then
    { exitCode := 1, ranPreHook := false, ranMain := false, svcTimeout := false }
  else
    let svc : Except String Unit :=
      if isoServices = "" then .ok () else waitForServices isoServices reach
    match svc with
    | .error _ =>
      { exitCode := 1, ranPreHook := false, ranMain := false, svcTimeout := true }
    | .ok _ =>
      match preRunExit with
      | some c =>
        if c ≠ 0 then
          { exitCode := c, ranPreHook := true, ranMain := false, svcTimeout := false }
        else
          let _ := postRunExit
          { exitCode := mainExit, ranPreHook := true, ranMain := true, svcTimeout := false }
      | none =>
        let _ := postRunExit
        { exitCode := mainExit, ranPreHook := false, ranMain := true, svcTimeout := false }

/-! ## The container-engine state model (docker.go primitives) -/

/-- One mutating engine call, as recorded in the state's log. -/
inductive EngineOp where
  | build (name : String)
  | pull (name : String)
  | createVolume (name : String)
  | createNetwork (name : String)
  | createContainer (name : String)
deriving DecidableEq

/-- An engine-side container together with the ownership labels the tool
attaches (`iso.managed`, `iso.project.name`, `iso.project.dir`,
`iso.session`, `iso.name`, `iso.ephemeral`, `iso.fresh`, `iso.service`)
and the named volumes bound into it. -/
structure ContainerInfo where
  id : Nat
  name : String
  running : Bool
  managed : Bool
  project : String
  projectDir : String
  session : String
  isoName : String
  ephemeral : Bool
  fresh : Bool
  isService : Bool
  autoRemove : Bool
  mounts : List String
deriving DecidableEq

/-- The abstract engine state: which images, containers, networks and
volumes exist, a counter for fresh container ids, and the log of
mutating create/build calls made so far. -/
structure DockerState where
  images : List String
  containers : List ContainerInfo
  networks : List String
  volumes : List String
  nextId : Nat
  log : List EngineOp
deriving DecidableEq

/-- docker.go `imageExists`. -/
def imageExists (st : DockerState) (n : String) : Bool := decide (n ∈ st.images)

/-- docker.go `buildImage` (assumed to succeed). -/
def buildImage (st : DockerState) (n : String) : DockerState :=
  { st with images := n :: st.images, log := st.log ++ [.build n] }

/-- docker.go `pullImage` (assumed to succeed). -/
def pullImage (st : DockerState) (n : String) : DockerState :=
  { st with images := n :: st.images, log := st.log ++ [.pull n] }

/-- docker.go `volumeExists`. -/
def volumeExists (st : DockerState) (n : String) : Bool := decide (n ∈ st.volumes)

/-- docker.go `createVolume`. -/
def createVolume (st : DockerState) (n : String) : DockerState :=
  { st with volumes := n :: st.volumes, log := st.log ++ [.createVolume n] }

/-- docker.go `removeVolume`. -/
def removeVolume (st : DockerState) (n : String) : DockerState :=
  { st with volumes := st.volumes.filter (fun v => v ≠ n) }

/-- docker.go `networkExists`. -/
def networkExists (st : DockerState) (n : String) : Bool := decide (n ∈ st.networks)

/-- docker.go `createNetwork`. -/
def createNetwork (st : DockerState) (n : String) : DockerState :=
  { st with networks := n :: st.networks, log := st.log ++ [.createNetwork n] }

/-- docker.go `removeNetwork` (in the model "not found" is absorbed, as
all the call sites do). -/
def removeNetwork (st : DockerState) (n : String) : DockerState :=
  { st with networks := st.networks.filter (fun v => v ≠ n) }

/-- docker.go `containerExists`: some container carries the name. -/
def containerExists (st : DockerState) (name : String) : Bool :=
  st.containers.any (fun c => decide (c.name = name))

/-- docker.go `isContainerRunning`: some running container carries the
name. -/
def isContainerRunning (st : DockerState) (name : String) : Bool :=
  st.containers.any (fun c => c.running && decide (c.name = name))

/-- docker.go `getContainerID`. -/
def getContainerID (st : DockerState) (name : String) : Option Nat :=
  (st.containers.find? (fun c => decide (c.name = name))).map (fun c => c.id)

/-- Engine `ContainerCreate`: the new container gets the next fresh id. -/
def containerCreate (st : DockerState) (info : Nat → ContainerInfo) :
    Nat × DockerState :=
  (st.nextId,
   { st with containers := st.containers ++ [info st.nextId],
             nextId := st.nextId + 1,
             log := st.log ++ [.createContainer (info st.nextId).name] })

/-- Engine `ContainerStart`. -/
def containerStart (st : DockerState) (id : Nat) : DockerState :=
  { st with containers := st.containers.map (fun c =>
      if c.id = id then { c with running := true } else c) }

/-- Engine `ContainerStop`: an auto-remove container is removed by the
engine as soon as it stops; others are just marked stopped. -/
def containerStop (st : DockerState) (id : Nat) : DockerState :=
  { st with containers := st.containers.filterMap (fun c =>
      if c.id = id then
        (if c.autoRemove then none else some { c with running := false })
      else some c) }

/-- Engine `ContainerRemove`. -/
def containerRemove (st : DockerState) (id : Nat) : DockerState :=
  { st with containers := st.containers.filter (fun c => c.id ≠ id) }

/-- Modelled from the spec: `listDanglingVolumes` (missing from the
source tree; docker.go only declares the call sites).  Dangling volumes
are the volumes referenced by no existing container. -/
def listDanglingVolumes (st : DockerState) : List String :=
  st.volumes.filter (fun v => !(st.containers.any (fun c => decide (v ∈ c.mounts))))

/-! ## The container manager (container.go) -/

/-- services.yml entry fields used by the lifecycle: the image and the
optional readiness port (0 when absent). -/
structure ServiceConfig where
  image : String
  port : Nat
deriving DecidableEq

/-- The fields of `containerManager` the lifecycle operations read.  The
Go `projectName` field is `worktreeProjectName` (container.go line 131),
so container labels and service names below use `worktreeProjectName`
wherever the source writes `cm.projectName`. -/
structure CM where
  worktreeProjectName : String
  baseProjectName : String
  projectRoot : String
  session : String
  workDir : String
  volumes : List String
  cache : List String
  services : List (String × ServiceConfig)
deriving DecidableEq

/-- The per-session network name (newContainerManager lines 96-102, also
rebuilt by the orphan cleaner from the labels). -/
def sessionNetworkName (projectName session : String) : String :=
  if session = "default" then projectName ++ "-network"
  else projectName ++ "-" ++ session ++ "-network"

/-- Shell container name (newContainerManager lines 96-102). -/
def CM.containerName (cm : CM) : String :=
  if cm.session = "default" then cm.worktreeProjectName ++ "-shell"
  else cm.worktreeProjectName ++ "-" ++ cm.session ++ "-shell"

/-- Session network name of this manager. -/
def CM.networkName (cm : CM) : String :=
  sessionNetworkName cm.worktreeProjectName cm.session

/-- Image name (newContainerManager line 93). -/
def CM.imageName (cm : CM) : String := cm.worktreeProjectName ++ "-shell"

/-- Session volume name for a configured path. -/
def CM.volName (cm : CM) (p : String) : String :=
  getVolumeNameForPath cm.worktreeProjectName cm.session p

/-- Cache volume name for a configured path. -/
def CM.cacheVolName (cm : CM) (p : String) : String :=
  getCacheVolumeNameForPath cm.baseProjectName p

/-- container.go `getServiceContainerName`: the stable name of a
persistent service container. -/
def getServiceContainerName (cm : CM) (serviceName : String) : String :=
  if cm.session = "default" then cm.worktreeProjectName ++ "_" ++ serviceName
  else cm.worktreeProjectName ++ "-" ++ cm.session ++ "_" ++ serviceName

/-- The unique per-run name of a fresh service container
(`startFreshServices`, container.go lines 417-423). -/
def freshServiceName (cm : CM) (serviceName runID : String) : String :=
  if cm.session = "default" then
    cm.worktreeProjectName ++ "_" ++ serviceName ++ "-fresh-" ++ runID
  else
    cm.worktreeProjectName ++ "-" ++ cm.session ++ "_" ++ serviceName ++
      "-fresh-" ++ runID

/-- container.go line 344: a session is ephemeral iff its id starts with
`eph-`. -/
def isEphemeralSession (s : String) : Bool := goHasPrefix s "eph-"

/-- container.go `ensureImage`: build only when the tagged image is
absent. -/
def ensureImage (st : DockerState) (cm : CM) : DockerState :=
  if imageExists st cm.imageName then st else buildImage st cm.imageName

/-- container.go `ensureNetwork`: create only when absent. -/
def ensureNetwork (st : DockerState) (cm : CM) : DockerState :=
  if networkExists st cm.networkName then st else createNetwork st cm.networkName

/-- The check-then-create loop of `ensureVolumes` over one list of
configured paths. -/
def ensureVolumesLoop (nameOf : String → String) :
    DockerState → List String → DockerState
  | st, [] => st
  | st, p :: rest =>
    let st1 := if volumeExists st (nameOf p) then st else createVolume st (nameOf p)
    ensureVolumesLoop nameOf st1 rest

/-- container.go `ensureVolumes`: create each missing session volume,
then each missing cache volume unless `ISO_CACHE_DIR` is set
(`cacheDirSet`), in which case cache paths use host binds and no cache
volume is created. -/
def ensureVolumes (st : DockerState) (cm : CM) (cacheDirSet : Bool) : DockerState :=
  let st1 := ensureVolumesLoop cm.volName st cm.volumes
  if cacheDirSet then st1 else ensureVolumesLoop cm.cacheVolName st1 cm.cache

/-- The named volumes bound into the shell container (`startContainer`
lines 302-319): session volumes plus, when no host cache dir is used,
the cache volumes. -/
def shellMounts (cm : CM) (cacheDirSet : Bool) : List String :=
  cm.volumes.map cm.volName ++
    (if cacheDirSet then [] else cm.cache.map cm.cacheVolName)

/-- The shell container's record as `startContainer` creates it: the
ownership labels of container.go lines 347-368, auto-remove exactly for
an ephemeral session, with the session and cache volumes bound in. -/
def shellInfo (cm : CM) (cacheDirSet : Bool) (i : Nat) : ContainerInfo :=
  { id := i, name := cm.containerName, running := false, managed := true,
    project := cm.worktreeProjectName, projectDir := cm.projectRoot,
    session := cm.session, isoName := "shell",
    ephemeral := isEphemeralSession cm.session, fresh := false,
    isService := false, autoRemove := isEphemeralSession cm.session,
    mounts := shellMounts cm cacheDirSet }

/-- container.go `startContainer`: ensure volumes, create the shell
container with the ownership labels (auto-remove exactly for ephemeral
sessions), and start it. -/
def startContainer (st : DockerState) (cm : CM) (cacheDirSet : Bool) :
    Nat × DockerState :=
  let st1 := ensureVolumes st cm cacheDirSet
  let r := containerCreate st1 (shellInfo cm cacheDirSet)
  (r.1, containerStart r.2 r.1)

/-- A fresh service container's record as `startFreshServices` creates
it: the labels of container.go lines 445-458, auto-remove, no volume
binds. -/
def freshInfo (cm : CM) (runID serviceName : String) (i : Nat) : ContainerInfo :=
  { id := i, name := freshServiceName cm serviceName runID, running := false,
    managed := true, project := cm.worktreeProjectName,
    projectDir := cm.projectRoot, session := cm.session,
    isoName := serviceName, ephemeral := false, fresh := true,
    isService := true, autoRemove := true, mounts := [] }

/-- The per-service loop of `startFreshServices`: pull the image when
missing, create the uniquely named fresh container (auto-remove, labelled
`iso.fresh`), start it. -/
def startFreshLoop (cm : CM) (runID : String) :
    DockerState → List (String × ServiceConfig) → List Nat × DockerState
  | st, [] => ([], st)
  | st, (serviceName, cfg) :: rest =>
    let st1 := if imageExists st cfg.image then st else pullImage st cfg.image
    let r := containerCreate st1 (freshInfo cm runID serviceName)
    let st3 := containerStart r.2 r.1
    let rs := startFreshLoop cm runID st3 rest
    (r.1 :: rs.1, rs.2)

/-- container.go `startFreshServices`: nothing to do without declared
services; otherwise ensure the session network and start one fresh
container per declared service, returning their ids. -/
def startFreshServices (st : DockerState) (cm : CM) (runID : String) :
    List Nat × DockerState :=
  if cm.services.isEmpty then ([], st)
  else
    let st1 := ensureNetwork st cm
    startFreshLoop cm runID st1 cm.services

/-- container.go `stopFreshServices`: stop each fresh container (they
are auto-remove, so stopping removes them); errors are absorbed. -/
def stopFreshServices (st : DockerState) (ids : List Nat) : DockerState :=
  ids.foldl containerStop st

/-- container.go `arePersistentServicesRunning`: false without declared
services; otherwise every declared service must be running under its
stable name. -/
def arePersistentServicesRunning (st : DockerState) (cm : CM) : Bool :=
  if cm.services.isEmpty then false
  else cm.services.all (fun sc => isContainerRunning st (getServiceContainerName cm sc.1))

/-- The fresh-services phase at the top of `runCommand` (lines 525-542):
when the persistent services are not all running, start fresh ones. -/
def runSetup (st : DockerState) (cm : CM) (runID : String) :
    List Nat × DockerState :=
  if arePersistentServicesRunning st cm then ([], st)
  else startFreshServices st cm runID

/-- The shell-container phase of `runCommand` (lines 544-584): reuse a
running container, start a stopped one, or build the image and create a
fresh one. -/
def runMain (st : DockerState) (cm : CM) (cacheDirSet : Bool) :
    Nat × DockerState :=
  if isContainerRunning st cm.containerName then
    ((getContainerID st cm.containerName).getD 0, st)
  else if containerExists st cm.containerName then
    let id := (getContainerID st cm.containerName).getD 0
    (id, containerStart st id)
  else
    let st1 := ensureImage st cm
    startContainer st1 cm cacheDirSet

/-- State-level model of container.go `runCommand`: fresh-service setup,
shell container reconciliation, the exec itself (abstracted to its
inspected exit code `execExit`), and the deferred `stopFreshServices`,
which runs whatever the exec's outcome. -/
def runCommand (st : DockerState) (cm : CM) (runID : String)
    (cacheDirSet : Bool) (execExit : Nat) : Nat × DockerState :=
  let setup := runSetup st cm runID
  let main := runMain setup.2 cm cacheDirSet
  let st3 := stopFreshServices main.2 setup.1
  (execExit, st3)

/-- Modelled from the spec: `listProjectContainers` (missing from the
source tree).  Per the Resource Client contract it is a label-filtered
container list: all managed containers of the given project and
session. -/
def listProjectContainers (st : DockerState) (projectName session : String) :
    List ContainerInfo :=
  st.containers.filter (fun c =>
    c.managed && decide (c.project = projectName) && decide (c.session = session))

/-- Modelled from the spec: `stopAndRemoveContainer` (missing from the
source tree): stop the container with a bounded grace period, then
remove it, absorbing already-removed errors. -/
def stopAndRemoveContainer (st : DockerState) (id : Nat) : DockerState :=
  containerRemove (containerStop st id) id

/-- container.go `stopContainer`: list the (project, session) group and,
when it is empty, return at once (lines 824-827) without touching
network or volumes; otherwise stop and remove every listed container,
remove the session network, remove the session's configured volumes, and
for an ephemeral session also remove every dangling volume carrying the
session's `worktree-session-` prefix. -/
def stopContainer (st : DockerState) (cm : CM) : DockerState :=
  let listed := listProjectContainers st cm.worktreeProjectName cm.session
  if listed.isEmpty then st
  else
    let st1 := listed.foldl (fun s c => stopAndRemoveContainer s c.id) st
    let st2 := removeNetwork st1 cm.networkName
    let st3 := cm.volumes.foldl (fun s p =>
        if volumeExists s (cm.volName p) then removeVolume s (cm.volName p) else s) st2
    if isEphemeralSession cm.session then
      let pre := cm.worktreeProjectName ++ "-" ++ cm.session ++ "-"
      (listDanglingVolumes st3).foldl (fun s v =>
          if goHasPrefix v pre then removeVolume s v else s) st3
    else st3

/-- iso.go `Client.Run`: an empty command list yields exit code 0 plus
the error "no command specified" and touches nothing; otherwise it
delegates to `runCommand`. -/
def clientRun (st : DockerState) (cm : CM) (command : List String)
    (runID : String) (cacheDirSet : Bool) (execExit : Nat) :
    (Nat × Option String) × DockerState :=
  if command.isEmpty then ((0, some "no command specified"), st)
  else
    let r := runCommand st cm runID cacheDirSet execExit
    ((r.1, none), r.2)

/-- The session-independent part of the manager configuration; the
session is resolved per invocation by `getSession`. -/
structure CMBase where
  worktreeProjectName : String
  baseProjectName : String
  projectRoot : String
  workDir : String
  volumes : List String
  cache : List String
  services : List (String × ServiceConfig)
deriving DecidableEq

/-- Build the manager for a resolved session. -/
def mkCM (b : CMBase) (session : String) : CM :=
  { worktreeProjectName := b.worktreeProjectName,
    baseProjectName := b.baseProjectName, projectRoot := b.projectRoot,
    session := session, workDir := b.workDir, volumes := b.volumes,
    cache := b.cache, services := b.services }

/-- The `run` CLI handler: resolve the session, run the command, and —
for an ephemeral session only — tear the whole session down afterwards,
whatever `Run` returned. -/
def runInvocation (st : DockerState) (b : CMBase)
    (flagValue envSession randToken : String) (command : List String)
    (runID : String) (cacheDirSet : Bool) (execExit : Nat) :
    (Nat × Option String) × DockerState :=
  let g := getSession flagValue envSession randToken
  let cm := mkCM b g.1
  let r := clientRun st cm command runID cacheDirSet execExit
  let st2 := if g.2 then stopContainer r.2 cm else r.2
  (r.1, st2)

/-! ## The orphan garbage collector (iso.go) -/

/-- Modelled from the spec: `listIsoContainers` (missing from the source
tree): all containers carrying the `iso.managed` label, system-wide. -/
def listIsoContainers (st : DockerState) : List ContainerInfo :=
  st.containers.filter (fun c => c.managed)

/-- iso.go `OrphanedSession`. -/
structure OrphanedSession where
  projectDir : String
  projectName : String
  session : String
  containers : List ContainerInfo
deriving DecidableEq

/-- The grouping keys (recorded project directory, session) of a
container list, in first-occurrence order. -/
def sessionKeys (cs : List ContainerInfo) : List (String × String) :=
  (cs.map (fun c => (c.projectDir, c.session))).dedup

/-- All containers of one (project directory, session) group. -/
def groupContainers (cs : List ContainerInfo) (key : String × String) :
    List ContainerInfo :=
  cs.filter (fun c => decide (c.projectDir = key.1) && decide (c.session = key.2))

/-- The grouping and directory check of iso.go `ListOrphaned` on a fixed
container list: report exactly the groups whose recorded project
directory no longer exists (`dirExists` models `os.Stat` not returning
IsNotExist). -/
def listOrphanedOf (cs : List ContainerInfo) (dirExists : String → Bool) :
    List OrphanedSession :=
  (sessionKeys cs).filterMap (fun key =>
    if dirExists key.1 then none
    else
      match groupContainers cs key with
      | [] => none
      | c :: rest =>
        some { projectDir := key.1, projectName := c.project,
               session := key.2, containers := c :: rest })

/-- iso.go `ListOrphaned`. -/
def ListOrphaned (st : DockerState) (dirExists : String → Bool) :
    List OrphanedSession :=
  listOrphanedOf (listIsoContainers st) dirExists

/-- The container-removal loop of `CleanupOrphaned` in destructive
mode: stop and remove every container of every reported group. -/
def removeGroupContainers (st : DockerState) (groups : List OrphanedSession) :
    DockerState :=
  groups.foldl (fun s o => o.containers.foldl
    (fun s2 c => containerRemove (containerStop s2 c.id) c.id) s) st

/-- The session networks of the reported groups, deduplicated. -/
def orphanNetworks (groups : List OrphanedSession) : List String :=
  (groups.map (fun o => sessionNetworkName o.projectName o.session)).dedup

/-- iso.go `CleanupOrphaned`: dry-run only counts the reported groups'
containers; destructive mode stops and removes every container of every
reported group and afterwards (after a settle delay, which the model
keeps only as ordering) removes each group's session network. -/
def CleanupOrphaned (st : DockerState) (dirExists : String → Bool)
    (dryRun : Bool) : Nat × DockerState :=
  let orphaned := ListOrphaned st dirExists
  if orphaned.isEmpty then (0, st)
  else if dryRun then
    ((orphaned.map (fun o => o.containers.length)).sum, st)
  else
    let st2 := (orphanNetworks orphaned).foldl removeNetwork
      (removeGroupContainers st orphaned)
    ((orphaned.map (fun o => o.containers.length)).sum, st2)

/-! ## Auxiliary predicates and concrete fixtures used by the theorems -/

/-- A well-formed path segment of a cleaned Unix path: non-empty, not the
current-directory marker, not beginning with `..` (Go's fallback check is
a plain string-prefix test), and containing no separator. -/
def validSeg (s : String) : Prop :=
  s ≠ "" ∧ s ≠ "." ∧ goHasPrefix s ".." = false ∧ '/' ∉ s.data

instance : DecidablePred validSeg := fun s => by
  unfold validSeg
  infer_instance

/-- The dial address of one well-formed `host:port` readiness spec. -/
def addrOfSpec (spec : String) : String :=
  match splitChar ':' spec with
  | [host, port] => host ++ ":" ++ port
  | _ => ""

/-- Engine-id sanity: every existing container's id is below the
next-id counter (fresh ids are really fresh). -/
def idsBounded (st : DockerState) : Prop :=
  ∀ c ∈ st.containers, c.id < st.nextId

/-- Every container of the state satisfies `P`. -/
def containersPred (P : ContainerInfo → Prop) (st : DockerState) : Prop :=
  ∀ c ∈ st.containers, P c

/-- `P` does not depend on the `running` flag. -/
def runningInsensitive (P : ContainerInfo → Prop) : Prop :=
  ∀ (c : ContainerInfo) (r : Bool), P c → P { c with running := r }

/-- Stage view of `stopContainer`: the (project, session) group it lists. -/
def stListed (st : DockerState) (cm : CM) : List ContainerInfo :=
  listProjectContainers st cm.worktreeProjectName cm.session

/-- Stage view of `stopContainer`: after stopping and removing the
group's containers. -/
def stAfterContainers (st : DockerState) (cm : CM) : DockerState :=
  (stListed st cm).foldl (fun s c => stopAndRemoveContainer s c.id) st

/-- Stage view of `stopContainer`: after also removing the session
network. -/
def stAfterNetwork (st : DockerState) (cm : CM) : DockerState :=
  removeNetwork (stAfterContainers st cm) cm.networkName

/-- Stage view of `stopContainer`: after also removing the configured
session volumes. -/
def stAfterVolumes (st : DockerState) (cm : CM) : DockerState :=
  cm.volumes.foldl (fun s p =>
    if volumeExists s (cm.volName p) then removeVolume s (cm.volName p) else s)
    (stAfterNetwork st cm)

/-- One iteration of the fresh-service loop: the state after pulling the
image (when missing), creating and starting one fresh container. -/
def freshStep (cm : CM) (rid : String) (sc : String × ServiceConfig)
    (st : DockerState) : DockerState :=
  containerStart (containerCreate (if imageExists st sc.2.image then st
    else pullImage st sc.2.image) (freshInfo cm rid sc.1)).2
    (containerCreate (if imageExists st sc.2.image then st
      else pullImage st sc.2.image) (freshInfo cm rid sc.1)).1

/-- The id given to the fresh container of one loop iteration. -/
def freshStepId (cm : CM) (rid : String) (sc : String × ServiceConfig)
    (st : DockerState) : Nat :=
  (containerCreate (if imageExists st sc.2.image then st
    else pullImage st sc.2.image) (freshInfo cm rid sc.1)).1

/-- An engine with no resources at all. -/
def emptyState : DockerState :=
  { images := [], containers := [], networks := [], volumes := [],
    nextId := 0, log := [] }

/-- A small concrete manager configuration with two session volumes. -/
def twoVolCM : CM :=
  { worktreeProjectName := "w", baseProjectName := "w", projectRoot := "/r",
    session := "s1", workDir := "/workspace", volumes := ["/va", "/vb"],
    cache := [], services := [] }

/-- A small concrete manager configuration with one declared service. -/
def oneSvcCM : CM :=
  { worktreeProjectName := "w", baseProjectName := "w", projectRoot := "/r",
    session := "s1", workDir := "/workspace", volumes := [], cache := [],
    services := [("db", { image := "db:1", port := 5432 })] }

/-- A small concrete session-independent configuration. -/
def smallBase : CMBase :=
  { worktreeProjectName := "w", baseProjectName := "w", projectRoot := "/r",
    workDir := "/workspace", volumes := ["/va"], cache := ["/ca"],
    services := [("db", { image := "db:1", port := 5432 })] }

/-- A concrete managed container whose recorded project directory is
`/gone`. -/
def orphanC : ContainerInfo :=
  { id := 0, name := "w-s1-shell", running := true, managed := true,
    project := "w", projectDir := "/gone", session := "s1", isoName := "shell",
    ephemeral := false, fresh := false, isService := false, autoRemove := false,
    mounts := [] }

/-- An engine holding exactly the orphaned container and its session
network. -/
def orphanSt : DockerState :=
  { images := [], containers := [orphanC], networks := ["w-s1-network"],
    volumes := [], nextId := 1, log := [] }

/-- A directory-existence oracle under which only `/gone` is missing. -/
def goneDirExists (d : String) : Bool := decide (d ≠ "/gone")

/-! # Theorems -/

/-! ## Basic string facts -/

theorem goHasPrefix_append (a x : String) : goHasPrefix (a ++ x) a = true := by
  have h : (a ++ x).data = a.data ++ x.data := String.data_append a x
  simp only [goHasPrefix, h]
  induction a.data with
  | nil => simp [List.isPrefixOf]
  | cons c cs ih => simp [List.isPrefixOf, ih]

theorem trimSlashes_slash_cons (l : List Char) :
    trimSlashes ('/' :: l) = trimSlashes l := by
  simp [trimSlashes, List.dropWhile_cons]

theorem dropWhile_append_singleton (l : List Char) :
    ('/' :: l).dropWhile (· = '/') = l.dropWhile (· = '/') := by
  simp [List.dropWhile_cons]

theorem trimSlashes_append_slash (l : List Char) :
    trimSlashes (l ++ ['/']) = trimSlashes l := by
  induction l with
  | nil => simp [trimSlashes]
  | cons c cs ih =>
    by_cases hc : c = '/'
    · subst hc
      simpa [trimSlashes_slash_cons] using ih
    · simp only [trimSlashes, List.cons_append, List.dropWhile_cons, hc,
        if_neg, decide_eq_true_eq]
      simp [List.reverse_append, List.dropWhile_cons]

/-! ## C6: purity and stability of the naming functions -/

/-- C6: resource naming is pure and stable — identical
`(identity, session, path)` inputs give identical volume and cache
volume names with no hidden state; sanitization removes every `/`
(leading and trailing slashes are dropped, interior ones become `-`),
prepending or appending a `/` never changes a sanitized name, and
`/a/b/` sanitizes to `a-b`. -/
theorem naming_pure_and_stable :
    (∀ w s p w' s' p', w = w' → s = s' → p = p' →
      getVolumeNameForPath w s p = getVolumeNameForPath w' s' p') ∧
    (∀ b p b' p', b = b' → p = p' →
      getCacheVolumeNameForPath b p = getCacheVolumeNameForPath b' p') ∧
    (∀ p, '/' ∉ (sanitizePath p).data) ∧
    (∀ p, sanitizePath (String.mk ('/' :: p.data)) = sanitizePath p) ∧
    (∀ p, sanitizePath (String.mk (p.data ++ ['/'])) = sanitizePath p) ∧
    sanitizePath "/a/b/" = "a-b" := by
  refine ⟨?_, ?_, ?_, ?_, ?_, by decide⟩
  · intro w s p w' s' p' hw hs hp; rw [hw, hs, hp]
  · intro b p b' p' hb hp; rw [hb, hp]
  · intro p hmem
    have hm : '/' ∈ (trimSlashes p.data).map (fun c => if c = '/' then '-' else c) :=
      hmem
    rcases List.mem_map.mp hm with ⟨c, _, hc⟩
    by_cases h : c = '/'
    · rw [if_pos h] at hc
      exact absurd hc (by decide)
    · rw [if_neg h] at hc
      exact h hc
  · intro p
    simp [sanitizePath, trimSlashes_slash_cons]
  · intro p
    simp [sanitizePath, trimSlashes_append_slash]

/-- Witness for C6 at a concrete input. -/
theorem naming_pure_and_stable_witness :
    getVolumeNameForPath "w" "s1" "/a/b/" = getVolumeNameForPath "w" "s1" "/a/b/" ∧
    sanitizePath "/a/b/" = "a-b" :=
  ⟨naming_pure_and_stable.1 "w" "s1" "/a/b/" "w" "s1" "/a/b/" rfl rfl rfl,
   naming_pure_and_stable.2.2.2.2.2⟩

/-! ## C5: session resolution order -/

/-- C5: session identity resolution — an explicit session name wins and
is not ephemeral; otherwise a non-empty `ISO_SESSION` value wins and is
not ephemeral; otherwise the freshly generated `eph-` id is used, and
only that generated case is marked ephemeral. -/
theorem getSession_resolution (flagValue envSession randToken : String) :
    (flagValue ≠ "" → getSession flagValue envSession randToken = (flagValue, false)) ∧
    (flagValue = "" → envSession ≠ "" →
      getSession flagValue envSession randToken = (envSession, false)) ∧
    (flagValue = "" → envSession = "" →
      getSession flagValue envSession randToken = ("eph-" ++ randToken, true)) ∧
    ((getSession flagValue envSession randToken).2 = true ↔
      flagValue = "" ∧ envSession = "") := by
  unfold getSession
  by_cases hf : flagValue = "" <;> by_cases he : envSession = "" <;>
    simp [hf, he]

/-- Witness for C5: with no flag and no environment value the session is
the generated ephemeral id. -/
theorem getSession_resolution_witness :
    ("" = "" ∧ "" = "") ∧ getSession "" "" "tok" = ("eph-" ++ "tok", true) :=
  ⟨⟨rfl, rfl⟩, (getSession_resolution "" "" "tok").2.2.1 rfl rfl⟩

/-! ## C10: Run with an empty command -/

/-- C10: `Client.Run` with an empty command list returns exit code 0
together with the error "no command specified" and leaves the engine
state — containers, networks, volumes, images and the mutation log —
entirely untouched. -/
theorem run_empty_command (st : DockerState) (cm : CM) (runID : String)
    (cacheDirSet : Bool) (execExit : Nat) :
    clientRun st cm [] runID cacheDirSet execExit =
      ((0, some "no command specified"), st) := by
  simp [clientRun]

/-! ## C2: idempotent ensure operations -/

theorem mem_volumes_ensureVolumesLoop (nameOf : String → String) :
    ∀ (ps : List String) (st : DockerState) (v : String),
      v ∈ st.volumes → v ∈ (ensureVolumesLoop nameOf st ps).volumes := by
  intro ps
  induction ps with
  | nil => intro st v hv; exact hv
  | cons p rest ih =>
    intro st v hv
    simp only [ensureVolumesLoop]
    split
    · exact ih st v hv
    · exact ih _ v (by simp [createVolume, hv])

theorem nameOf_mem_ensureVolumesLoop (nameOf : String → String) :
    ∀ (ps : List String) (st : DockerState), ∀ p ∈ ps,
      nameOf p ∈ (ensureVolumesLoop nameOf st ps).volumes := by
  intro ps
  induction ps with
  | nil => intro st p hp; cases hp
  | cons q rest ih =>
    intro st p hp
    rcases List.mem_cons.mp hp with h | h
    · subst h
      simp only [ensureVolumesLoop]
      split
    <;> rename_i hex
      · exact mem_volumes_ensureVolumesLoop nameOf rest st _
          (of_decide_eq_true hex)
      · exact mem_volumes_ensureVolumesLoop nameOf rest _ _
          (by simp [createVolume])
    · simp only [ensureVolumesLoop]
      exact ih _ p h

theorem ensureVolumesLoop_no_op (nameOf : String → String) :
    ∀ (ps : List String) (st : DockerState),
      (∀ p ∈ ps, nameOf p ∈ st.volumes) → ensureVolumesLoop nameOf st ps = st := by
  intro ps
  induction ps with
  | nil => intro st _; rfl
  | cons q rest ih =>
    intro st h
    have hq : volumeExists st (nameOf q) = true :=
      decide_eq_true (h q (List.mem_cons_self q rest))
    simp only [ensureVolumesLoop, hq, if_pos]
    exact ih st (fun p hp => h p (List.mem_cons_of_mem q hp))

/-- C2 counterexample: with two configured session volumes and a fresh
engine, the first `ensureVolumes` call alone performs two mutating
create calls, so two consecutive calls perform more than one mutating
engine call in total — the claim's bound of one fails. -/
theorem ensure_two_mutations_counterexample :
    (ensureVolumes emptyState twoVolCM false).log.length = 2 ∧
    ¬ ((ensureVolumes (ensureVolumes emptyState twoVolCM false) twoVolCM
          false).log.length ≤ 1) := by
  constructor <;> decide

/-- C2 (amended): each ensure operation is idempotent — the second of
two consecutive calls with no intervening state change performs no
mutating engine call at all (the state, including the mutation log, is
unchanged), and `ensureImage`/`ensureNetwork` perform at most one
build/create across both calls; in the model every call succeeds.
(`ensureVolumes` performs one create per *missing volume* on the first
call, not at most one in total.) -/
theorem ensure_operations_idempotent (st : DockerState) (cm : CM)
    (cacheDirSet : Bool) :
    (ensureImage (ensureImage st cm) cm = ensureImage st cm ∧
      (ensureImage st cm).log.length ≤ st.log.length + 1) ∧
    (ensureNetwork (ensureNetwork st cm) cm = ensureNetwork st cm ∧
      (ensureNetwork st cm).log.length ≤ st.log.length + 1) ∧
    (ensureVolumes (ensureVolumes st cm cacheDirSet) cm cacheDirSet =
      ensureVolumes st cm cacheDirSet) := by
  refine ⟨⟨?_, ?_⟩, ⟨?_, ?_⟩, ?_⟩
  · by_cases h : imageExists st cm.imageName = true
    · unfold ensureImage
      rw [if_pos h, if_pos h]
    · have h' : ¬ (imageExists st cm.imageName = true) := h
      have e1 : ensureImage st cm = buildImage st cm.imageName := by
        unfold ensureImage; rw [if_neg h']
      have h2 : imageExists (buildImage st cm.imageName) cm.imageName = true := by
        simp [imageExists, buildImage]
      rw [e1]
      unfold ensureImage
      rw [if_pos h2]
  · by_cases h : imageExists st cm.imageName = true
    · unfold ensureImage
      rw [if_pos h]
      exact Nat.le_succ _
    · have e1 : ensureImage st cm = buildImage st cm.imageName := by
        unfold ensureImage; rw [if_neg h]
      rw [e1]
      simp [buildImage]
  · by_cases h : networkExists st cm.networkName = true
    · unfold ensureNetwork
      rw [if_pos h, if_pos h]
    · have e1 : ensureNetwork st cm = createNetwork st cm.networkName := by
        unfold ensureNetwork; rw [if_neg h]
      have h2 : networkExists (createNetwork st cm.networkName) cm.networkName
          = true := by
        simp [networkExists, createNetwork]
      rw [e1]
      unfold ensureNetwork
      rw [if_pos h2]
  · by_cases h : networkExists st cm.networkName = true
    · unfold ensureNetwork
      rw [if_pos h]
      exact Nat.le_succ _
    · have e1 : ensureNetwork st cm = createNetwork st cm.networkName := by
        unfold ensureNetwork; rw [if_neg h]
      rw [e1]
      simp [createNetwork]
  · unfold ensureVolumes
    by_cases hc : cacheDirSet = true
    · simp only [hc, if_pos]
      apply ensureVolumesLoop_no_op
      intro p hp
      exact nameOf_mem_ensureVolumesLoop cm.volName cm.volumes st p hp
    · simp only [Bool.not_eq_true] at hc
      simp only [hc, Bool.false_eq_true, if_neg, not_false_iff]
      have h1 : ∀ p ∈ cm.volumes,
          cm.volName p ∈ (ensureVolumesLoop cm.cacheVolName
            (ensureVolumesLoop cm.volName st cm.volumes) cm.cache).volumes := by
        intro p hp
        exact mem_volumes_ensureVolumesLoop cm.cacheVolName cm.cache _ _
          (nameOf_mem_ensureVolumesLoop cm.volName cm.volumes st p hp)
      rw [ensureVolumesLoop_no_op cm.volName cm.volumes _ h1]
      apply ensureVolumesLoop_no_op
      intro p hp
      exact nameOf_mem_ensureVolumesLoop cm.cacheVolName cm.cache _ p hp

/-! ## C4: exit-code mirroring -/

/-- C4: when the pre-run hook is absent or succeeds and service
readiness holds, the in-container wrapper exits with the main command's
exit code unchanged — whatever the post-run hook does — and `runCommand`
returns exactly the exec's inspected exit code, so a wrapped command
exiting with code N yields a run result of exactly N. -/
theorem exit_code_mirrored (command : List String) (isoServices : String)
    (reach : String → Nat → Bool) (preRunExit : Option Nat) (mainExit : Nat)
    (postRunExit : Option Nat) (st : DockerState) (cm : CM) (runID : String)
    (cacheDirSet : Bool)
    (hcmd : command ≠ [])
    (hsvc : isoServices = "" ∨ waitForServices isoServices reach = .ok ())
    (hpre : preRunExit = none ∨ preRunExit = some 0) :
    (inEnvRun command isoServices reach preRunExit mainExit postRunExit).exitCode
        = mainExit ∧
    (runCommand st cm runID cacheDirSet
        (inEnvRun command isoServices reach preRunExit mainExit
          postRunExit).exitCode).1 = mainExit := by
  have hok : (if isoServices = "" then Except.ok ()
      else waitForServices isoServices reach) = Except.ok () := by
    rcases hsvc with h | h
    · simp [h]
    · by_cases h0 : isoServices = "" <;> simp [h0, h]
  have hx : (inEnvRun command isoServices reach preRunExit mainExit
      postRunExit).exitCode = mainExit := by
    unfold inEnvRun
    rw [if_neg hcmd]
    rcases hpre with h | h <;> simp [h, hok]
  exact ⟨hx, by rw [show (runCommand st cm runID cacheDirSet
    (inEnvRun command isoServices reach preRunExit mainExit
      postRunExit).exitCode).1 = (inEnvRun command isoServices reach preRunExit
        mainExit postRunExit).exitCode from rfl, hx]⟩

/-- Witness for C4: a wrapped command exiting 7 yields a run result of
exactly 7, with a failing post-run hook present. -/
theorem exit_code_mirrored_witness :
    (["false"] ≠ ([] : List String) ∧
      ("" = "" ∨ waitForServices "" (fun _ _ => true) = .ok ()) ∧
      ((none : Option Nat) = none ∨ (none : Option Nat) = some 0)) ∧
    (inEnvRun ["false"] "" (fun _ _ => true) none 7 (some 3)).exitCode = 7 ∧
    (runCommand emptyState twoVolCM "r1" false
      (inEnvRun ["false"] "" (fun _ _ => true) none 7 (some 3)).exitCode).1 = 7 :=
  ⟨⟨by decide, Or.inl rfl, Or.inl rfl⟩,
   exit_code_mirrored ["false"] "" (fun _ _ => true) none 7 (some 3)
     emptyState twoVolCM "r1" false (by decide) (Or.inl rfl) (Or.inl rfl)⟩

/-! ## C3: working-directory mapping -/

theorem relSegs_append : ∀ (bs ts : List String), relSegs bs (bs ++ ts) = ts := by
  intro bs
  induction bs with
  | nil => intro ts; rfl
  | cons b bs ih => intro ts; simp [relSegs, ih]

theorem isPrefixOf_append_self {α : Type} [BEq α] [LawfulBEq α]
    (l m : List α) : l.isPrefixOf (l ++ m) = true := by
  induction l with
  | nil => simp [List.isPrefixOf]
  | cons a l ih => simp [List.isPrefixOf, ih]

theorem relSegs_not_prefixOf : ∀ (bs ts : List String),
    bs.isPrefixOf ts = false → ∃ rest, relSegs bs ts = ".." :: rest := by
  intro bs
  induction bs with
  | nil => intro ts h; simp [List.isPrefixOf] at h
  | cons b bs ih =>
    intro ts h
    cases ts with
    | nil => exact ⟨bs.map (fun _ => ".."), by simp [relSegs]⟩
    | cons t ts' =>
      by_cases hbt : b = t
      · subst hbt
        simp only [List.isPrefixOf, beq_self_eq_true, Bool.true_and] at h
        rcases ih ts' h with ⟨rest, hrest⟩
        exact ⟨rest, by simp [relSegs, hrest]⟩
      · exact ⟨bs.map (fun _ => "..") ++ t :: ts', by simp [relSegs, hbt]⟩

theorem joinSegs_cons_data (s : String) (rest : List String) :
    (joinSegs (s :: rest)).data = s.data ++ (joinRest rest).data := by
  simp [joinSegs, String.data_append]

theorem goHasPrefix_joinSegs_dotdot (rest : List String) :
    goHasPrefix (joinSegs (".." :: rest)) ".." = true := by
  simp only [goHasPrefix, joinSegs_cons_data]
  exact isPrefixOf_append_self _ _

theorem joinSegs_valid_facts (s₀ : String) (rest : List String)
    (h : validSeg s₀) :
    joinSegs (s₀ :: rest) ≠ "." ∧ isAbs (joinSegs (s₀ :: rest)) = false ∧
    joinSegs (s₀ :: rest) ≠ ".." ∧
    goHasPrefix (joinSegs (s₀ :: rest)) ".." = false := by
  obtain ⟨hne, hdot, hpre, hslash⟩ := h
  have hd : (joinSegs (s₀ :: rest)).data = s₀.data ++ (joinRest rest).data :=
    joinSegs_cons_data s₀ rest
  cases hsd : s₀.data with
  | nil =>
    exact absurd (String.ext (by rw [hsd])) hne
  | cons c cs =>
    have hcs : c ∈ s₀.data := by rw [hsd]; exact List.mem_cons_self c cs
    have hcslash : ('/' == c) = false := by
      rw [beq_eq_false_iff_ne]
      intro hc
      exact hslash (hc ▸ hcs)
    have hpre2 : goHasPrefix (joinSegs (s₀ :: rest)) ".." = false := by
      rw [goHasPrefix, hd, hsd]
      cases cs with
      | nil =>
        have hcdot : ('.' == c) = false := by
          rw [beq_eq_false_iff_ne]
          intro hc
          exact hdot (String.ext (by rw [hsd, ← hc]))
        simp [List.isPrefixOf, hcdot]
      | cons c₂ cs₂ =>
        have hp : goHasPrefix s₀ ".." = (('.' == c) && ('.' == c₂)) := by
          rw [goHasPrefix, hsd]
          simp [List.isPrefixOf]
        rw [hp] at hpre
        simpa [List.isPrefixOf] using hpre
    refine ⟨?_, ?_, ?_, hpre2⟩
    · intro heq
      have hde : s₀.data ++ (joinRest rest).data = ['.'] := by
        rw [← hd, heq]
      rw [hsd] at hde
      have h1 : c = '.' ∧ cs ++ (joinRest rest).data = [] := by
        simpa using hde
      have hsd2 : s₀.data = ['.'] := by
        rcases List.append_eq_nil.mp h1.2 with ⟨hcs0, _⟩
        rw [hsd, hcs0, h1.1]
      exact hdot (String.ext (by rw [hsd2]))
    · rw [isAbs, goHasPrefix, hd, hsd]
      simp [List.isPrefixOf, hcslash]
    · intro heq
      rw [heq] at hpre2
      exact absurd hpre2 (by decide)

/-- C3 counterexample: `/p/..x` names a subdirectory of project root
`/p` (offset `..x`), yet the code maps it to the workdir root
`/workspace` instead of `/workspace/..x`: the escape check uses a plain
string-prefix test on `..`, which also catches ordinary names beginning
with two dots. -/
theorem computeWorkDir_dotdot_counterexample :
    computeWorkDir "/workspace" "/p" "/p/..x" = "/workspace" ∧
    computeWorkDir "/workspace" "/p" "/p/..x" ≠ "/workspace/..x" := by
  constructor <;> decide

/-- C3 (amended): for a caller working directory that is a subdirectory
of the project root with well-formed path segments none of which begins
with `..`, the in-container working directory is the configured workdir
extended by exactly that offset; and for every working directory not
under the project root the computation falls back to the configured
workdir itself — it never escapes the workdir root.  (A subdirectory
whose name itself begins with `..` also falls back to the workdir
root.) -/
theorem computeWorkDir_maps_and_confines (W P cwd : String) :
    (∀ subSegs, splitSegs cwd = splitSegs P ++ subSegs → subSegs ≠ [] →
        (∀ s ∈ subSegs, validSeg s) →
        computeWorkDir W P cwd = joinPath W (joinSegs subSegs)) ∧
    ((splitSegs P).isPrefixOf (splitSegs cwd) = false →
        computeWorkDir W P cwd = W) := by
  constructor
  · intro subSegs hsplit hne hval
    cases subSegs with
    | nil => exact absurd rfl hne
    | cons s₀ rest =>
      have hrel : relSegs (splitSegs P) (splitSegs cwd) = s₀ :: rest := by
        rw [hsplit]; exact relSegs_append _ _
      have hfacts := joinSegs_valid_facts s₀ rest (hval s₀ (List.mem_cons_self _ _))
      have hrp : relPathOf P cwd = joinSegs (s₀ :: rest) := by
        simp only [relPathOf, hrel]
        simp
      simp only [computeWorkDir, hrp]
      rw [if_pos ⟨hfacts.1, hfacts.2.1, hfacts.2.2.1, hfacts.2.2.2⟩]
  · intro hnp
    rcases relSegs_not_prefixOf _ _ hnp with ⟨rest, hrest⟩
    have hrp : relPathOf P cwd = joinSegs (".." :: rest) := by
      simp only [relPathOf, hrest]
      simp
    simp only [computeWorkDir, hrp]
    rw [if_neg]
    intro hcond
    rw [goHasPrefix_joinSegs_dotdot rest] at hcond
    exact absurd hcond.2.2.2 (by decide)

/-- Witness for C3 at concrete inputs: cwd `/p/sub` under root `/p`
maps to `/workspace/sub`, and cwd `/q` outside `/p` falls back to
`/workspace`. -/
theorem computeWorkDir_maps_and_confines_witness :
    (splitSegs "/p/sub" = splitSegs "/p" ++ ["sub"] ∧
      (["sub"] : List String) ≠ [] ∧ (∀ s ∈ ["sub"], validSeg s) ∧
      (splitSegs "/p").isPrefixOf (splitSegs "/q") = false) ∧
    computeWorkDir "/workspace" "/p" "/p/sub" =
      joinPath "/workspace" (joinSegs ["sub"]) ∧
    computeWorkDir "/workspace" "/p" "/q" = "/workspace" :=
  ⟨⟨by decide, by decide, by decide, by decide⟩,
   (computeWorkDir_maps_and_confines "/workspace" "/p" "/p/sub").1 ["sub"]
     (by decide) (by decide) (by decide),
   (computeWorkDir_maps_and_confines "/workspace" "/p" "/q").2 (by decide)⟩

/-! ## C8: readiness timeout aborts before the user command -/

theorem serviceReady_false (reach : Nat → Bool)
    (h : ∀ a, 1 ≤ a → a ≤ maxAttempts → reach a = false) :
    serviceReady reach = false := by
  unfold serviceReady
  rw [List.any_eq_false]
  intro i hi
  rw [List.mem_range] at hi
  rw [h (i + 1) (Nat.succ_le_succ (Nat.zero_le i)) hi]
  exact Bool.false_ne_true

theorem waitForServicesLoop_fails (reach : String → Nat → Bool) :
    ∀ specs : List String,
      (∀ s ∈ specs, (splitChar ':' s).length = 2) →
      (∃ s ∈ specs, serviceReady (reach (addrOfSpec s)) = false) →
      ∃ msg, waitForServicesLoop reach specs = .error msg := by
  intro specs
  induction specs with
  | nil =>
    intro _ h
    rcases h with ⟨s, hs, _⟩
    cases hs
  | cons spec rest ih =>
    intro hwf hex
    have hsp := hwf spec (List.mem_cons_self _ _)
    obtain ⟨host, port, hsplit⟩ : ∃ a b, splitChar ':' spec = [a, b] := by
      cases hsp2 : splitChar ':' spec with
      | nil => simp [hsp2] at hsp
      | cons a t =>
        cases t with
        | nil => simp [hsp2] at hsp
        | cons b t2 =>
          cases t2 with
          | nil => exact ⟨a, b, rfl⟩
          | cons e t3 => simp [hsp2] at hsp
    by_cases hr : serviceReady (reach (host ++ ":" ++ port)) = true
    · have hrest : ∃ s ∈ rest, serviceReady (reach (addrOfSpec s)) = false := by
        rcases hex with ⟨s, hs, hfail⟩
        rcases List.mem_cons.mp hs with h1 | h1
        · subst h1
          rw [addrOfSpec, hsplit] at hfail
          rw [hfail] at hr
          cases hr
        · exact ⟨s, h1, hfail⟩
      rcases ih (fun s hs => hwf s (List.mem_cons_of_mem _ hs)) hrest with ⟨msg, hmsg⟩
      refine ⟨msg, ?_⟩
      simp only [waitForServicesLoop, hsplit]
      rw [if_pos hr]
      exact hmsg
    · refine ⟨"service " ++ host ++ " not ready after 30 attempts", ?_⟩
      simp only [waitForServicesLoop, hsplit]
      rw [if_neg hr]

/-- C8: for a declared service whose readiness port is never reachable
within the 30 bounded one-second attempts, the in-container wrapper
aborts with a fatal readiness error (exit 1): neither the pre-run hook
nor the user's main command ever executes. -/
theorem readiness_timeout_aborts (command : List String) (isoServices : String)
    (reach : String → Nat → Bool) (preRunExit : Option Nat) (mainExit : Nat)
    (postRunExit : Option Nat)
    (hcmd : command ≠ [])
    (hwf : ∀ s ∈ splitChar ',' isoServices, (splitChar ':' s).length = 2)
    (hfail : ∃ s ∈ splitChar ',' isoServices,
        ∀ a, 1 ≤ a → a ≤ maxAttempts → reach (addrOfSpec s) a = false) :
    (inEnvRun command isoServices reach preRunExit mainExit
        postRunExit).svcTimeout = true ∧
    (inEnvRun command isoServices reach preRunExit mainExit
        postRunExit).ranMain = false ∧
    (inEnvRun command isoServices reach preRunExit mainExit
        postRunExit).ranPreHook = false ∧
    (inEnvRun command isoServices reach preRunExit mainExit
        postRunExit).exitCode = 1 ∧
    maxAttempts = 30 := by
  have hns : isoServices ≠ "" := by
    intro h0
    subst h0
    have := hwf "" (by decide)
    simp [splitChar, splitCharAux] at this
  have herr : ∃ msg, waitForServices isoServices reach = .error msg := by
    apply waitForServicesLoop_fails reach _ hwf
    rcases hfail with ⟨s, hs, hf⟩
    exact ⟨s, hs, serviceReady_false _ hf⟩
  rcases herr with ⟨msg, hmsg⟩
  have hrun : inEnvRun command isoServices reach preRunExit mainExit postRunExit
      = { exitCode := 1, ranPreHook := false, ranMain := false,
          svcTimeout := true } := by
    unfold inEnvRun
    rw [if_neg hcmd]
    simp [hns, waitForServices] at hmsg ⊢
    rw [hmsg]
  rw [hrun]
  exact ⟨rfl, rfl, rfl, rfl, rfl⟩

/-- Witness for C8: one declared service `db:5432` with no listener ever
bound — the wrapper times out and the user command never runs. -/
theorem readiness_timeout_aborts_witness :
    ((["sh"] : List String) ≠ [] ∧
      (∀ s ∈ splitChar ',' "db:5432", (splitChar ':' s).length = 2)) ∧
    (inEnvRun ["sh"] "db:5432" (fun _ _ => false) none 0 none).svcTimeout = true ∧
    (inEnvRun ["sh"] "db:5432" (fun _ _ => false) none 0 none).ranMain = false ∧
    (inEnvRun ["sh"] "db:5432" (fun _ _ => false) none 0 none).ranPreHook = false ∧
    (inEnvRun ["sh"] "db:5432" (fun _ _ => false) none 0 none).exitCode = 1 ∧
    maxAttempts = 30 :=
  ⟨⟨by decide, by decide⟩,
   readiness_timeout_aborts ["sh"] "db:5432" (fun _ _ => false) none 0 none
     (by decide) (by decide) ⟨"db:5432", by decide, fun _ _ _ => rfl⟩⟩

/-! ## C9: orphan detection and cleanup -/

theorem mem_groupContainers (cs : List ContainerInfo) (key : String × String)
    (c : ContainerInfo) :
    c ∈ groupContainers cs key ↔
      c ∈ cs ∧ c.projectDir = key.1 ∧ c.session = key.2 := by
  simp [groupContainers, List.mem_filter, and_assoc]

theorem mem_sessionKeys (cs : List ContainerInfo) (key : String × String) :
    key ∈ sessionKeys cs ↔ ∃ c ∈ cs, (c.projectDir, c.session) = key := by
  simp [sessionKeys, List.mem_dedup, List.mem_map]

theorem mem_listOrphanedOf (cs : List ContainerInfo) (dirExists : String → Bool)
    (o : OrphanedSession) :
    o ∈ listOrphanedOf cs dirExists ↔
      ∃ key ∈ sessionKeys cs, dirExists key.1 = false ∧
        ∃ c rest, groupContainers cs key = c :: rest ∧
          o = { projectDir := key.1, projectName := c.project, session := key.2,
                containers := c :: rest } := by
  simp only [listOrphanedOf, List.mem_filterMap]
  constructor
  · rintro ⟨key, hk, hf⟩
    refine ⟨key, hk, ?_⟩
    by_cases hd : dirExists key.1 = true
    · rw [if_pos hd] at hf
      cases hf
    · have hd' : dirExists key.1 = false := by
        simpa using hd
      rw [if_neg hd] at hf
      cases hg : groupContainers cs key with
      | nil =>
        simp only [hg] at hf
        cases hf
      | cons c rest =>
        simp only [hg] at hf
        exact ⟨hd', c, rest, rfl, (Option.some.inj hf).symm⟩
  · rintro ⟨key, hk, hd, c, rest, hg, ho⟩
    refine ⟨key, hk, ?_⟩
    rw [if_neg (by simp [hd]), hg, ho]

theorem mem_stopAndRemove (st : DockerState) (i : Nat) (c : ContainerInfo) :
    c ∈ (stopAndRemoveContainer st i).containers ↔
      c ∈ st.containers ∧ c.id ≠ i := by
  simp only [stopAndRemoveContainer, containerRemove, containerStop,
    List.mem_filter, List.mem_filterMap, decide_eq_true_eq]
  constructor
  · rintro ⟨⟨c₀, hc₀, hg⟩, hid⟩
    by_cases h : c₀.id = i
    · rw [if_pos h] at hg
      by_cases ha : c₀.autoRemove = true
      · rw [if_pos ha] at hg
        cases hg
      · rw [if_neg ha] at hg
        have hc : c = { c₀ with running := false } := (Option.some.inj hg).symm
        exact absurd (by rw [hc]; exact h) hid
    · rw [if_neg h] at hg
      have hc : c = c₀ := (Option.some.inj hg).symm
      subst hc
      exact ⟨hc₀, h⟩
  · rintro ⟨hc, hid⟩
    exact ⟨⟨c, hc, by rw [if_neg hid]⟩, hid⟩

theorem stopAndRemove_networks (st : DockerState) (i : Nat) :
    (stopAndRemoveContainer st i).networks = st.networks := rfl

theorem stopAndRemove_volumes (st : DockerState) (i : Nat) :
    (stopAndRemoveContainer st i).volumes = st.volumes := rfl

theorem mem_foldl_removeIds :
    ∀ (xs : List ContainerInfo) (st : DockerState) (c : ContainerInfo),
      c ∈ (xs.foldl (fun s2 x => containerRemove (containerStop s2 x.id) x.id)
          st).containers →
      c ∈ st.containers ∧ ∀ x ∈ xs, c.id ≠ x.id := by
  intro xs
  induction xs with
  | nil =>
    intro st c h
    exact ⟨h, by simp⟩
  | cons x xs ih =>
    intro st c h
    rcases ih _ c h with ⟨h1, h2⟩
    have h1' : c ∈ (stopAndRemoveContainer st x.id).containers := h1
    rw [mem_stopAndRemove] at h1'
    refine ⟨h1'.1, ?_⟩
    intro y hy
    rcases List.mem_cons.mp hy with hxy | hxy
    · rw [hxy]
      exact h1'.2
    · exact h2 y hxy

theorem foldl_removeIds_networks (xs : List ContainerInfo) :
    ∀ st : DockerState,
      ((xs.foldl (fun s2 x => containerRemove (containerStop s2 x.id) x.id)
          st).networks = st.networks) := by
  induction xs with
  | nil => intro st; rfl
  | cons x xs ih => intro st; rw [List.foldl_cons, ih]; rfl

theorem mem_foldl_removeGroups :
    ∀ (groups : List OrphanedSession) (st : DockerState) (c : ContainerInfo),
      c ∈ (groups.foldl (fun s o => o.containers.foldl
          (fun s2 x => containerRemove (containerStop s2 x.id) x.id) s)
          st).containers →
      c ∈ st.containers ∧ ∀ o ∈ groups, ∀ x ∈ o.containers, c.id ≠ x.id := by
  intro groups
  induction groups with
  | nil =>
    intro st c h
    exact ⟨h, by simp⟩
  | cons g groups ih =>
    intro st c h
    rcases ih _ c h with ⟨h1, h2⟩
    rcases mem_foldl_removeIds g.containers st c h1 with ⟨h3, h4⟩
    refine ⟨h3, ?_⟩
    intro o ho
    rcases List.mem_cons.mp ho with hgo | hgo
    · rw [hgo]
      exact h4
    · exact h2 o hgo

theorem foldl_removeGroups_networks (groups : List OrphanedSession) :
    ∀ st : DockerState,
      ((groups.foldl (fun s o => o.containers.foldl
          (fun s2 x => containerRemove (containerStop s2 x.id) x.id) s)
          st).networks = st.networks) := by
  induction groups with
  | nil => intro st; rfl
  | cons g groups ih =>
    intro st
    rw [List.foldl_cons, ih, foldl_removeIds_networks]

theorem foldl_removeNetwork_containers (ns : List String) :
    ∀ st : DockerState, (ns.foldl removeNetwork st).containers = st.containers := by
  induction ns with
  | nil => intro st; rfl
  | cons n ns ih => intro st; rw [List.foldl_cons, ih]; rfl

theorem foldl_removeNetwork_subset (ns : List String) :
    ∀ (st : DockerState) (x : String),
      x ∈ (ns.foldl removeNetwork st).networks → x ∈ st.networks := by
  induction ns with
  | nil => intro st x h; exact h
  | cons n ns ih =>
    intro st x h
    have := ih (removeNetwork st n) x h
    simp only [removeNetwork, List.mem_filter] at this
    exact this.1

theorem foldl_removeNetwork_not_mem (ns : List String) :
    ∀ (st : DockerState) (n : String), n ∈ ns →
      n ∉ (ns.foldl removeNetwork st).networks := by
  induction ns with
  | nil =>
    intro st n h
    cases h
  | cons m ns ih =>
    intro st n h hmem
    rcases List.mem_cons.mp h with h1 | h1
    · subst h1
      have := foldl_removeNetwork_subset ns (removeNetwork st n) n hmem
      simp [removeNetwork, List.mem_filter] at this
    · exact ih (removeNetwork st m) n h1 hmem

/-- C9: the orphan scan reports exactly the (recorded project directory,
session) groups of managed containers whose directory no longer exists —
a session whose directory exists is never reported, and each reported
group carries all managed containers with that key; dry-run cleanup only
counts the reported groups' containers and changes nothing; destructive
cleanup removes every container of every reported group (no managed
container with a missing project directory survives) and afterwards
removes each reported group's session network. -/
theorem orphan_scan_and_cleanup (st : DockerState) (dirExists : String → Bool)
    (pd s : String) :
    ((∃ o ∈ ListOrphaned st dirExists, o.projectDir = pd ∧ o.session = s) ↔
      ((∃ c ∈ listIsoContainers st, c.projectDir = pd ∧ c.session = s) ∧
        dirExists pd = false)) ∧
    (∀ o ∈ ListOrphaned st dirExists,
        o.containers =
          groupContainers (listIsoContainers st) (o.projectDir, o.session) ∧
        dirExists o.projectDir = false) ∧
    (CleanupOrphaned st dirExists true =
      (((ListOrphaned st dirExists).map (fun o => o.containers.length)).sum, st)) ∧
    (∀ c ∈ (CleanupOrphaned st dirExists false).2.containers,
        c.managed = true → dirExists c.projectDir = true) ∧
    (∀ o ∈ ListOrphaned st dirExists,
        sessionNetworkName o.projectName o.session ∉
          (CleanupOrphaned st dirExists false).2.networks) := by
  have horph : ∀ (pd' s' : String),
      ((∃ c ∈ listIsoContainers st, c.projectDir = pd' ∧ c.session = s') ∧
        dirExists pd' = false) →
      ∃ o ∈ ListOrphaned st dirExists,
        o.projectDir = pd' ∧ o.session = s' ∧
        ∀ c ∈ listIsoContainers st,
          c.projectDir = pd' → c.session = s' → c ∈ o.containers := by
    intro pd' s' h
    rcases h with ⟨⟨c, hc, hcp, hcs⟩, hd⟩
    have hkey : ((pd', s') : String × String) ∈ sessionKeys (listIsoContainers st) := by
      rw [mem_sessionKeys]
      exact ⟨c, hc, by rw [hcp, hcs]⟩
    have hcg : c ∈ groupContainers (listIsoContainers st) (pd', s') := by
      rw [mem_groupContainers]
      exact ⟨hc, hcp, hcs⟩
    cases hg : groupContainers (listIsoContainers st) (pd', s') with
    | nil =>
      rw [hg] at hcg
      cases hcg
    | cons c₀ rest =>
      refine ⟨{ projectDir := pd', projectName := c₀.project, session := s',
                containers := c₀ :: rest }, ?_, rfl, rfl, ?_⟩
      · rw [ListOrphaned, mem_listOrphanedOf]
        exact ⟨(pd', s'), hkey, hd, c₀, rest, hg, rfl⟩
      · intro c' hc' hp' hs'
        have hmm : c' ∈ groupContainers (listIsoContainers st) (pd', s') := by
          rw [mem_groupContainers]
          exact ⟨hc', hp', hs'⟩
        rw [hg] at hmm
        exact hmm
  have hfinal : (ListOrphaned st dirExists = [] ∧
        (CleanupOrphaned st dirExists false).2 = st) ∨
      (CleanupOrphaned st dirExists false).2 =
        (orphanNetworks (ListOrphaned st dirExists)).foldl removeNetwork
          (removeGroupContainers st (ListOrphaned st dirExists)) := by
    simp only [CleanupOrphaned]
    by_cases he : (ListOrphaned st dirExists).isEmpty = true
    · rw [if_pos he]
      exact Or.inl ⟨List.isEmpty_iff.mp he, rfl⟩
    · rw [if_neg he, if_neg (by simp)]
      exact Or.inr rfl
  refine ⟨⟨?_, ?_⟩, ?_, ?_, ?_, ?_⟩
  · rintro ⟨o, ho, hop, hos⟩
    rw [ListOrphaned, mem_listOrphanedOf] at ho
    rcases ho with ⟨key, hk, hd, c, rest, hg, hoe⟩
    subst hoe
    refine ⟨⟨c, ?_, ?_, ?_⟩, ?_⟩
    · have hmm : c ∈ groupContainers (listIsoContainers st) key := by
        rw [hg]
        exact List.mem_cons_self _ _
      exact ((mem_groupContainers _ _ _).mp hmm).1
    · have hmm : c ∈ groupContainers (listIsoContainers st) key := by
        rw [hg]
        exact List.mem_cons_self _ _
      have h2 := ((mem_groupContainers _ _ _).mp hmm).2.1
      rw [h2]
      exact hop
    · have hmm : c ∈ groupContainers (listIsoContainers st) key := by
        rw [hg]
        exact List.mem_cons_self _ _
      have h2 := ((mem_groupContainers _ _ _).mp hmm).2.2
      rw [h2]
      exact hos
    · have hop' : key.1 = pd := hop
      rw [← hop']
      exact hd
  · intro h
    rcases horph pd s h with ⟨o, ho, hop, hos, _⟩
    exact ⟨o, ho, hop, hos⟩
  · intro o ho
    rw [ListOrphaned, mem_listOrphanedOf] at ho
    rcases ho with ⟨key, hk, hd, c, rest, hg, hoe⟩
    subst hoe
    exact ⟨by simpa using hg.symm, by simpa using hd⟩
  · simp only [CleanupOrphaned]
    by_cases he : (ListOrphaned st dirExists).isEmpty = true
    · rw [if_pos he]
      rw [List.isEmpty_iff.mp he]
      rfl
    · rw [if_neg he, if_pos trivial]
  · intro c hc hm
    by_contra hnd
    have hd : dirExists c.projectDir = false := by
      cases h : dirExists c.projectDir
      · rfl
      · exact absurd h hnd
    rcases hfinal with ⟨hemp, hst⟩ | hst
    · rw [hst] at hc
      have hiso : c ∈ listIsoContainers st := by
        rw [listIsoContainers, List.mem_filter]
        exact ⟨hc, hm⟩
      rcases horph c.projectDir c.session ⟨⟨c, hiso, rfl, rfl⟩, hd⟩ with ⟨o, ho, _⟩
      rw [hemp] at ho
      cases ho
    · rw [hst] at hc
      rw [foldl_removeNetwork_containers] at hc
      rcases mem_foldl_removeGroups (ListOrphaned st dirExists) st c hc with ⟨hcs, hall⟩
      have hiso : c ∈ listIsoContainers st := by
        rw [listIsoContainers, List.mem_filter]
        exact ⟨hcs, hm⟩
      rcases horph c.projectDir c.session ⟨⟨c, hiso, rfl, rfl⟩, hd⟩ with
        ⟨o, ho, _, _, hinc⟩
      exact absurd rfl (hall o ho c (hinc c hiso rfl rfl))
  · intro o ho
    rcases hfinal with ⟨hemp, hst⟩ | hst
    · rw [hemp] at ho
      cases ho
    · rw [hst]
      apply foldl_removeNetwork_not_mem
      rw [orphanNetworks, List.mem_dedup]
      exact List.mem_map.mpr ⟨o, ho, rfl⟩

/-- Witness for C9: one managed container recorded under the deleted
directory `/gone` is reported as orphaned, and dry-run cleanup only
counts it. -/
theorem orphan_scan_and_cleanup_witness :
    (∃ o ∈ ListOrphaned orphanSt goneDirExists,
        o.projectDir = "/gone" ∧ o.session = "s1") ∧
    (CleanupOrphaned orphanSt goneDirExists true =
      (((ListOrphaned orphanSt goneDirExists).map
          (fun o => o.containers.length)).sum, orphanSt)) :=
  ⟨(orphan_scan_and_cleanup orphanSt goneDirExists "/gone" "s1").1.mpr
     ⟨⟨orphanC, by decide, rfl, rfl⟩, by decide⟩,
   (orphan_scan_and_cleanup orphanSt goneDirExists "/gone" "s1").2.2.1⟩

/-! ## Shared machinery: how the run pipeline transforms the state -/

theorem ensureVolumesLoop_frame (nameOf : String → String) :
    ∀ (ps : List String) (st : DockerState),
      (ensureVolumesLoop nameOf st ps).containers = st.containers ∧
      (ensureVolumesLoop nameOf st ps).networks = st.networks ∧
      (ensureVolumesLoop nameOf st ps).nextId = st.nextId := by
  intro ps
  induction ps with
  | nil => intro st; exact ⟨rfl, rfl, rfl⟩
  | cons p rest ih =>
    intro st
    simp only [ensureVolumesLoop]
    split
    · exact ih st
    · rcases ih (createVolume st (nameOf p)) with ⟨h1, h2, h3⟩
      exact ⟨h1, h2, h3⟩

theorem ensureVolumes_frame (st : DockerState) (cm : CM) (cds : Bool) :
    (ensureVolumes st cm cds).containers = st.containers ∧
    (ensureVolumes st cm cds).networks = st.networks ∧
    (ensureVolumes st cm cds).nextId = st.nextId := by
  unfold ensureVolumes
  by_cases h : cds = true
  · rw [if_pos h]
    exact ensureVolumesLoop_frame _ _ _
  · rw [if_neg h]
    rcases ensureVolumesLoop_frame cm.volName cm.volumes st with ⟨h1, h2, h3⟩
    rcases ensureVolumesLoop_frame cm.cacheVolName cm.cache
      (ensureVolumesLoop cm.volName st cm.volumes) with ⟨g1, g2, g3⟩
    exact ⟨g1.trans h1, g2.trans h2, g3.trans h3⟩

theorem ensureImage_frame (st : DockerState) (cm : CM) :
    (ensureImage st cm).containers = st.containers ∧
    (ensureImage st cm).networks = st.networks ∧
    (ensureImage st cm).volumes = st.volumes ∧
    (ensureImage st cm).nextId = st.nextId := by
  unfold ensureImage
  split
  · exact ⟨rfl, rfl, rfl, rfl⟩
  · exact ⟨rfl, rfl, rfl, rfl⟩

theorem ensureNetwork_frame (st : DockerState) (cm : CM) :
    (ensureNetwork st cm).containers = st.containers ∧
    (ensureNetwork st cm).volumes = st.volumes ∧
    (ensureNetwork st cm).nextId = st.nextId := by
  unfold ensureNetwork
  split
  · exact ⟨rfl, rfl, rfl⟩
  · exact ⟨rfl, rfl, rfl⟩

theorem ensureNetwork_networks (st : DockerState) (cm : CM) (n : String) :
    n ∈ (ensureNetwork st cm).networks → n ∈ st.networks ∨ n = cm.networkName := by
  unfold ensureNetwork
  split
  · exact fun h => Or.inl h
  · intro h
    rcases List.mem_cons.mp h with h1 | h1
    · exact Or.inr h1
    · exact Or.inl h1

theorem startFreshLoop_frame (cm : CM) (rid : String) :
    ∀ (svcs : List (String × ServiceConfig)) (st : DockerState),
      (startFreshLoop cm rid st svcs).2.networks = st.networks ∧
      (startFreshLoop cm rid st svcs).2.volumes = st.volumes := by
  intro svcs
  induction svcs with
  | nil => intro st; exact ⟨rfl, rfl⟩
  | cons sc rest ih =>
    intro st
    simp only [startFreshLoop]
    rcases ih (containerStart
        (containerCreate (if imageExists st sc.2.image then st
          else pullImage st sc.2.image) (freshInfo cm rid sc.1)).2
        (containerCreate (if imageExists st sc.2.image then st
          else pullImage st sc.2.image) (freshInfo cm rid sc.1)).1) with ⟨h1, h2⟩
    constructor
    · rw [h1]
      split
      · rfl
      · rfl
    · rw [h2]
      split
      · rfl
      · rfl

theorem stopFreshServices_frame (ids : List Nat) :
    ∀ st : DockerState,
      (stopFreshServices st ids).networks = st.networks ∧
      (stopFreshServices st ids).volumes = st.volumes ∧
      (stopFreshServices st ids).nextId = st.nextId := by
  induction ids with
  | nil => intro st; exact ⟨rfl, rfl, rfl⟩
  | cons i ids ih =>
    intro st
    rcases ih (containerStop st i) with ⟨h1, h2, h3⟩
    exact ⟨h1, h2, h3⟩

theorem startContainer_state (st : DockerState) (cm : CM) (cds : Bool) :
    (startContainer st cm cds).2 =
      containerStart (containerCreate (ensureVolumes st cm cds)
        (shellInfo cm cds)).2 (ensureVolumes st cm cds).nextId := rfl

theorem runMain_networks (st : DockerState) (cm : CM) (cds : Bool) :
    (runMain st cm cds).2.networks = st.networks := by
  unfold runMain
  split
  · rfl
  · split
    · rfl
    · rw [startContainer_state]
      show (containerCreate (ensureVolumes (ensureImage st cm) cm cds)
        (shellInfo cm cds)).2.networks = st.networks
      show (ensureVolumes (ensureImage st cm) cm cds).networks = st.networks
      rw [(ensureVolumes_frame _ cm cds).2.1, (ensureImage_frame st cm).2.1]

/-! ### Predicate preservation through the pipeline -/

theorem containersPred_containerStart {P : ContainerInfo → Prop}
    (hP : runningInsensitive P) (st : DockerState) (i : Nat) :
    containersPred P st → containersPred P (containerStart st i) := by
  intro h c hc
  rcases List.mem_map.mp hc with ⟨c₀, hc₀, hce⟩
  by_cases hid : c₀.id = i
  · rw [if_pos hid] at hce
    rw [← hce]
    exact hP c₀ true (h c₀ hc₀)
  · rw [if_neg hid] at hce
    rw [← hce]
    exact h c₀ hc₀

theorem containersPred_containerStop {P : ContainerInfo → Prop}
    (hP : runningInsensitive P) (st : DockerState) (i : Nat) :
    containersPred P st → containersPred P (containerStop st i) := by
  intro h c hc
  rcases List.mem_filterMap.mp hc with ⟨c₀, hc₀, hce⟩
  by_cases hid : c₀.id = i
  · rw [if_pos hid] at hce
    by_cases ha : c₀.autoRemove = true
    · rw [if_pos ha] at hce
      cases hce
    · rw [if_neg ha] at hce
      rw [← Option.some.inj hce]
      exact hP c₀ false (h c₀ hc₀)
  · rw [if_neg hid] at hce
    rw [← Option.some.inj hce]
    exact h c₀ hc₀

theorem containersPred_containerCreate {P : ContainerInfo → Prop}
    (st : DockerState) (info : Nat → ContainerInfo)
    (hinfo : P (info st.nextId)) :
    containersPred P st → containersPred P (containerCreate st info).2 := by
  intro h c hc
  rcases List.mem_append.mp hc with h1 | h1
  · exact h c h1
  · rw [List.mem_singleton.mp h1]
    exact hinfo

theorem containersPred_stopFreshServices {P : ContainerInfo → Prop}
    (hP : runningInsensitive P) (ids : List Nat) :
    ∀ st : DockerState,
      containersPred P st → containersPred P (stopFreshServices st ids) := by
  induction ids with
  | nil => intro st h; exact h
  | cons i ids ih =>
    intro st h
    exact ih (containerStop st i) (containersPred_containerStop hP st i h)

theorem containersPred_of_eq {P : ContainerInfo → Prop} {st st' : DockerState}
    (he : st'.containers = st.containers) :
    containersPred P st → containersPred P st' := by
  intro h c hc
  rw [he] at hc
  exact h c hc

theorem containersPred_startFreshLoop {P : ContainerInfo → Prop}
    (hP : runningInsensitive P) (cm : CM) (rid : String)
    (hinfo : ∀ sn i, P (freshInfo cm rid sn i)) :
    ∀ (svcs : List (String × ServiceConfig)) (st : DockerState),
      containersPred P st → containersPred P (startFreshLoop cm rid st svcs).2 := by
  intro svcs
  induction svcs with
  | nil => intro st h; exact h
  | cons sc rest ih =>
    intro st h
    simp only [startFreshLoop]
    apply ih
    apply containersPred_containerStart hP
    refine containersPred_containerCreate _ _ (hinfo sc.1 _) ?_
    exact containersPred_of_eq (by split <;> rfl) h

theorem containersPred_runMain {P : ContainerInfo → Prop}
    (hP : runningInsensitive P) (st : DockerState) (cm : CM) (cds : Bool)
    (hshell : ∀ i, st.nextId ≤ i → P (shellInfo cm cds i)) :
    containersPred P st → containersPred P (runMain st cm cds).2 := by
  intro h
  unfold runMain
  split
  · exact h
  · split
    · exact containersPred_containerStart hP st _ h
    · rw [startContainer_state]
      apply containersPred_containerStart hP
      refine containersPred_containerCreate _ _ ?_ ?_
      · apply hshell
        rw [(ensureVolumes_frame (ensureImage st cm) cm cds).2.2,
          (ensureImage_frame st cm).2.2.2]
      · exact containersPred_of_eq
          ((ensureVolumes_frame (ensureImage st cm) cm cds).1.trans
            (ensureImage_frame st cm).1) h

/-! ## C7: fresh-versus-persistent service lifecycle -/

theorem arePersistentServicesRunning_iff (st : DockerState) (cm : CM) :
    arePersistentServicesRunning st cm = true ↔
      cm.services ≠ [] ∧ ∀ sc ∈ cm.services,
        isContainerRunning st (getServiceContainerName cm sc.1) = true := by
  unfold arePersistentServicesRunning
  by_cases h : cm.services.isEmpty = true
  · rw [if_pos h]
    rw [List.isEmpty_iff] at h
    simp [h]
  · rw [if_neg h]
    rw [List.all_eq_true]
    constructor
    · intro ha
      refine ⟨?_, ha⟩
      intro he
      rw [he] at h
      exact h rfl
    · intro ha
      exact ha.2

theorem containerExists_containerStart (st : DockerState) (i : Nat) (n : String) :
    containerExists st n = true → containerExists (containerStart st i) n = true := by
  intro h
  rw [containerExists, List.any_eq_true] at h ⊢
  rcases h with ⟨c, hc, hn⟩
  by_cases hid : c.id = i
  · exact ⟨{ c with running := true }, List.mem_map.mpr ⟨c, hc, by rw [if_pos hid]⟩, hn⟩
  · exact ⟨c, List.mem_map.mpr ⟨c, hc, by rw [if_neg hid]⟩, hn⟩

theorem containerExists_containerCreate (st : DockerState)
    (info : Nat → ContainerInfo) (n : String) :
    containerExists st n = true → containerExists (containerCreate st info).2 n = true := by
  intro h
  rw [containerExists, List.any_eq_true] at h ⊢
  rcases h with ⟨c, hc, hn⟩
  exact ⟨c, List.mem_append.mpr (Or.inl hc), hn⟩

theorem containerExists_startFreshLoop (cm : CM) (rid : String) :
    ∀ (svcs : List (String × ServiceConfig)) (st : DockerState) (n : String),
      containerExists st n = true →
      containerExists (startFreshLoop cm rid st svcs).2 n = true := by
  intro svcs
  induction svcs with
  | nil => intro st n h; exact h
  | cons sc rest ih =>
    intro st n h
    simp only [startFreshLoop]
    apply ih
    apply containerExists_containerStart
    apply containerExists_containerCreate
    split
    · exact h
    · exact h

theorem freshName_exists_startFreshLoop (cm : CM) (rid : String) :
    ∀ (svcs : List (String × ServiceConfig)) (st : DockerState), ∀ sc ∈ svcs,
      containerExists (startFreshLoop cm rid st svcs).2
        (freshServiceName cm sc.1 rid) = true := by
  intro svcs
  induction svcs with
  | nil => intro st sc hsc; cases hsc
  | cons sc₁ rest ih =>
    intro st sc hsc
    rcases List.mem_cons.mp hsc with h1 | h1
    · subst h1
      simp only [startFreshLoop]
      apply containerExists_startFreshLoop
      apply containerExists_containerStart
      rw [containerExists, List.any_eq_true]
      refine ⟨freshInfo cm rid sc.1 (if imageExists st sc.2.image then st
        else pullImage st sc.2.image).nextId, ?_, by simp [freshInfo]⟩
      exact List.mem_append.mpr (Or.inr (List.mem_singleton.mpr rfl))
    · simp only [startFreshLoop]
      exact ih _ sc h1

theorem startFreshLoop_cons (cm : CM) (rid : String)
    (sc : String × ServiceConfig) (rest : List (String × ServiceConfig))
    (st : DockerState) :
    startFreshLoop cm rid st (sc :: rest) =
      (freshStepId cm rid sc st ::
        (startFreshLoop cm rid (freshStep cm rid sc st) rest).1,
       (startFreshLoop cm rid (freshStep cm rid sc st) rest).2) := rfl

theorem freshStep_nextId (cm : CM) (rid : String) (sc : String × ServiceConfig)
    (st : DockerState) : (freshStep cm rid sc st).nextId = st.nextId + 1 := by
  unfold freshStep
  split
  · rfl
  · rfl

theorem freshStepId_eq (cm : CM) (rid : String) (sc : String × ServiceConfig)
    (st : DockerState) : freshStepId cm rid sc st = st.nextId := by
  unfold freshStepId
  split
  · rfl
  · rfl

theorem startFreshLoop_ids_range (cm : CM) (rid : String) :
    ∀ (svcs : List (String × ServiceConfig)) (st : DockerState),
      st.nextId ≤ (startFreshLoop cm rid st svcs).2.nextId ∧
      ∀ i ∈ (startFreshLoop cm rid st svcs).1,
        st.nextId ≤ i ∧ i < (startFreshLoop cm rid st svcs).2.nextId := by
  intro svcs
  induction svcs with
  | nil =>
    intro st
    exact ⟨Nat.le_refl _, fun i hi => absurd hi (List.not_mem_nil i)⟩
  | cons sc rest ih =>
    intro st
    rw [startFreshLoop_cons]
    rcases ih (freshStep cm rid sc st) with ⟨ihle, ihmem⟩
    rw [freshStep_nextId] at ihle ihmem
    constructor
    · exact Nat.le_trans (Nat.le_succ _) ihle
    · intro i hi
      rcases List.mem_cons.mp hi with h1 | h1
      · subst h1
        rw [freshStepId_eq]
        exact ⟨Nat.le_refl _, Nat.lt_of_lt_of_le (Nat.lt_succ_self _) ihle⟩
      · rcases ihmem i h1 with ⟨hlo, hhi⟩
        exact ⟨Nat.le_trans (Nat.le_succ _) hlo, hhi⟩

theorem containerStop_removes_auto (st : DockerState) (i : Nat)
    (h : ∀ c ∈ st.containers, c.id = i → c.autoRemove = true) :
    containersPred (fun c => c.id ≠ i) (containerStop st i) := by
  intro c hc
  rcases List.mem_filterMap.mp hc with ⟨c₀, hc₀, hce⟩
  by_cases hid : c₀.id = i
  · rw [if_pos hid, if_pos (h c₀ hc₀ hid)] at hce
    cases hce
  · rw [if_neg hid] at hce
    rw [← Option.some.inj hce]
    exact hid

theorem stopFresh_removes (ids : List Nat) :
    ∀ st : DockerState,
      (∀ c ∈ st.containers, c.id ∈ ids → c.autoRemove = true) →
      ∀ c ∈ (stopFreshServices st ids).containers, c.id ∉ ids := by
  induction ids with
  | nil =>
    intro st _ c _ hmem
    cases hmem
  | cons i ids ih =>
    intro st h c hc hmem
    rcases List.mem_cons.mp hmem with h1 | h1
    · have hpred : containersPred (fun c => c.id ≠ i) (containerStop st i) :=
        containerStop_removes_auto st i
          (fun c hc hi => h c hc (by rw [hi]; exact List.mem_cons_self _ _))
      have hfold : containersPred (fun c => c.id ≠ i)
          (stopFreshServices (containerStop st i) ids) :=
        containersPred_stopFreshServices (fun c r hp => hp) ids _ hpred
      exact hfold c hc h1
    · have h2 : ∀ c ∈ (containerStop st i).containers,
          c.id ∈ ids → c.autoRemove = true :=
        containersPred_containerStop (fun c r hp => hp) st i
          (fun c hc hm => h c hc (List.mem_cons_of_mem _ hm))
      exact ih (containerStop st i) h2 c hc h1

theorem string_append_left_cancel (a b c : String) (h : a ++ b = a ++ c) :
    b = c := by
  apply String.ext
  have h2 := congrArg String.data h
  rw [String.data_append, String.data_append] at h2
  exact List.append_cancel_left h2

theorem freshServiceName_runID_inj (cm : CM) (n r1 r2 : String)
    (h : r1 ≠ r2) : freshServiceName cm n r1 ≠ freshServiceName cm n r2 := by
  intro he
  apply h
  unfold freshServiceName at he
  by_cases hd : cm.session = "default"
  · rw [if_pos hd, if_pos hd] at he
    exact string_append_left_cancel _ _ _ he
  · rw [if_neg hd, if_neg hd] at he
    exact string_append_left_cancel _ _ _ he

theorem startFreshLoop_auto (cm : CM) (rid : String)
    (svcs : List (String × ServiceConfig)) (st : DockerState)
    (hb : idsBounded st) :
    ∀ c ∈ (startFreshLoop cm rid st svcs).2.containers,
      st.nextId ≤ c.id → c.autoRemove = true :=
  containersPred_startFreshLoop
    (P := fun c => st.nextId ≤ c.id → c.autoRemove = true)
    (fun _ _ hp => hp) cm rid (fun _ _ _ => rfl) svcs st
    (fun c hc hle => absurd hle (Nat.not_le.mpr (hb c hc)))

theorem runSetup_of_not_running (st : DockerState) (cm : CM) (rid : String)
    (h : arePersistentServicesRunning st cm = false) (hne : cm.services ≠ []) :
    runSetup st cm rid =
      startFreshLoop cm rid (ensureNetwork st cm) cm.services := by
  unfold runSetup startFreshServices
  rw [if_neg (by rw [h]; exact Bool.false_ne_true),
    if_neg (fun hie => hne (List.isEmpty_iff.mp hie))]

theorem runCommand_eq (st : DockerState) (cm : CM) (rid : String) (cds : Bool)
    (e : Nat) :
    runCommand st cm rid cds e =
      (e, stopFreshServices (runMain (runSetup st cm rid).2 cm cds).2
            (runSetup st cm rid).1) := rfl

/-- C7: a session counts as having its services already up only when
every declared service container is running under its stable name (and
there is at least one declared service); when any declared service is
missing or stopped, the check fails and the run starts fresh per-run
service containers — one per declared service, under names unique to the
run id — whose removal after the run happens whatever the exec's
outcome: none of their ids survives in the final state. -/
theorem services_fresh_lifecycle (st : DockerState) (cm : CM) (runID : String)
    (cacheDirSet : Bool) :
    (arePersistentServicesRunning st cm = true ↔
      cm.services ≠ [] ∧ ∀ sc ∈ cm.services,
        isContainerRunning st (getServiceContainerName cm sc.1) = true) ∧
    (∀ n r1 r2, r1 ≠ r2 →
      freshServiceName cm n r1 ≠ freshServiceName cm n r2) ∧
    (idsBounded st → ∀ sc₀ ∈ cm.services,
      isContainerRunning st (getServiceContainerName cm sc₀.1) = false →
      arePersistentServicesRunning st cm = false ∧
      (∀ sc ∈ cm.services,
        containerExists (runSetup st cm runID).2
          (freshServiceName cm sc.1 runID) = true) ∧
      (∀ execExit : Nat, ∀ i ∈ (runSetup st cm runID).1,
        ∀ c ∈ (runCommand st cm runID cacheDirSet execExit).2.containers,
          c.id ≠ i)) := by
  refine ⟨arePersistentServicesRunning_iff st cm,
    fun n r1 r2 h => freshServiceName_runID_inj cm n r1 r2 h, ?_⟩
  intro hb sc₀ hsc₀ hnr
  have hne : cm.services ≠ [] := by
    intro he
    rw [he] at hsc₀
    cases hsc₀
  have hpsr : arePersistentServicesRunning st cm = false := by
    cases hv : arePersistentServicesRunning st cm
    · rfl
    · rcases (arePersistentServicesRunning_iff st cm).mp hv with ⟨_, hall⟩
      rw [hall sc₀ hsc₀] at hnr
      cases hnr
  have hsetup : runSetup st cm runID =
      startFreshLoop cm runID (ensureNetwork st cm) cm.services :=
    runSetup_of_not_running st cm runID hpsr hne
  have hbn : idsBounded (ensureNetwork st cm) := by
    intro c hc
    rw [(ensureNetwork_frame st cm).1] at hc
    rw [(ensureNetwork_frame st cm).2.2]
    exact hb c hc
  have hidr := (startFreshLoop_ids_range cm runID cm.services
    (ensureNetwork st cm)).2
  refine ⟨hpsr, ?_, ?_⟩
  · intro sc hsc
    rw [hsetup]
    exact freshName_exists_startFreshLoop cm runID cm.services _ sc hsc
  · intro e i hi c hc
    have hauto1 : ∀ c' ∈ (runSetup st cm runID).2.containers,
        c'.id ∈ (runSetup st cm runID).1 → c'.autoRemove = true := by
      intro c' hc' hmem
      rw [hsetup] at hc' hmem
      exact startFreshLoop_auto cm runID cm.services (ensureNetwork st cm) hbn
        c' hc' (hidr c'.id hmem).1
    have hauto2 : ∀ c' ∈ (runMain (runSetup st cm runID).2 cm
        cacheDirSet).2.containers,
        c'.id ∈ (runSetup st cm runID).1 → c'.autoRemove = true := by
      refine containersPred_runMain
        (P := fun c' => c'.id ∈ (runSetup st cm runID).1 → c'.autoRemove = true)
        (fun _ _ hp => hp) _ cm cacheDirSet ?_ hauto1
      intro j hj hjm
      exfalso
      rw [hsetup] at hjm hj
      exact absurd (hidr j hjm).2 (Nat.not_lt.mpr hj)
    have hrem := stopFresh_removes (runSetup st cm runID).1 _ hauto2
    rw [runCommand_eq] at hc
    exact fun he => (hrem c hc) (he ▸ hi)

/-- Witness for C7: one declared service, not running in the empty
engine — the persistence check fails, a fresh uniquely named container
is created for the run, and its id does not survive the run. -/
theorem services_fresh_lifecycle_witness :
    (idsBounded emptyState ∧
      isContainerRunning emptyState
        (getServiceContainerName oneSvcCM "db") = false) ∧
    arePersistentServicesRunning emptyState oneSvcCM = false ∧
    (∀ sc ∈ oneSvcCM.services,
      containerExists (runSetup emptyState oneSvcCM "r1").2
        (freshServiceName oneSvcCM sc.1 "r1") = true) ∧
    (∀ i ∈ (runSetup emptyState oneSvcCM "r1").1,
      ∀ c ∈ (runCommand emptyState oneSvcCM "r1" false 7).2.containers,
        c.id ≠ i) :=
  by
  have hb : idsBounded emptyState := by
    intro c hc
    cases hc
  have h := (services_fresh_lifecycle emptyState oneSvcCM "r1" false).2.2
    hb ("db", { image := "db:1", port := 5432 }) (by decide) (by decide)
  exact ⟨⟨hb, by decide⟩, h.1, h.2.1, h.2.2 7⟩

/-! ## C1: ephemeral sessions leave nothing behind -/

theorem mem_listProjectContainers (st : DockerState) (pn sn : String)
    (c : ContainerInfo) :
    c ∈ listProjectContainers st pn sn ↔
      c ∈ st.containers ∧ c.managed = true ∧ c.project = pn ∧ c.session = sn := by
  simp [listProjectContainers, List.mem_filter, and_assoc]

theorem foldl_removeIds_volumes (xs : List ContainerInfo) :
    ∀ st : DockerState,
      ((xs.foldl (fun s2 x => containerRemove (containerStop s2 x.id) x.id)
        st).volumes = st.volumes) := by
  induction xs with
  | nil => intro st; rfl
  | cons x xs ih =>
    intro st
    rw [List.foldl_cons, ih]
    rfl

theorem stopContainer_empty (st : DockerState) (cm : CM)
    (he : (stListed st cm).isEmpty = true) :
    stopContainer st cm = st := by
  have he2 : (listProjectContainers st cm.worktreeProjectName
      cm.session).isEmpty = true := he
  simp only [stopContainer]
  rw [if_pos he2]

theorem stopContainer_eq (st : DockerState) (cm : CM)
    (heph : isEphemeralSession cm.session = true)
    (hne : (stListed st cm).isEmpty = false) :
    stopContainer st cm =
      (listDanglingVolumes (stAfterVolumes st cm)).foldl (fun s v =>
        if goHasPrefix v (cm.worktreeProjectName ++ "-" ++ cm.session ++ "-")
        then removeVolume s v else s) (stAfterVolumes st cm) := by
  have hne2 : (listProjectContainers st cm.worktreeProjectName
      cm.session).isEmpty = false := hne
  simp only [stopContainer]
  rw [if_neg (by rw [hne2]; exact Bool.false_ne_true), if_pos heph]
  rfl

theorem mem_stAfterContainers (st : DockerState) (cm : CM) (c : ContainerInfo) :
    c ∈ (stAfterContainers st cm).containers →
      c ∈ st.containers ∧ ∀ x ∈ stListed st cm, c.id ≠ x.id := by
  intro h
  exact mem_foldl_removeIds (stListed st cm) st c h

theorem stAfterContainers_networks (st : DockerState) (cm : CM) :
    (stAfterContainers st cm).networks = st.networks :=
  foldl_removeIds_networks (stListed st cm) st

theorem stAfterContainers_volumes (st : DockerState) (cm : CM) :
    (stAfterContainers st cm).volumes = st.volumes :=
  foldl_removeIds_volumes (stListed st cm) st

theorem volFold_spec (cm : CM) (ps : List String) :
    ∀ st : DockerState,
      ((ps.foldl (fun s p => if volumeExists s (cm.volName p) then
          removeVolume s (cm.volName p) else s) st).containers = st.containers) ∧
      ((ps.foldl (fun s p => if volumeExists s (cm.volName p) then
          removeVolume s (cm.volName p) else s) st).networks = st.networks) ∧
      (∀ v ∈ (ps.foldl (fun s p => if volumeExists s (cm.volName p) then
          removeVolume s (cm.volName p) else s) st).volumes, v ∈ st.volumes) := by
  induction ps with
  | nil => intro st; exact ⟨rfl, rfl, fun v hv => hv⟩
  | cons p rest ih =>
    intro st
    rw [List.foldl_cons]
    rcases ih (if volumeExists st (cm.volName p) then
      removeVolume st (cm.volName p) else st) with ⟨h1, h2, h3⟩
    refine ⟨?_, ?_, ?_⟩
    · rw [h1]
      split
      · rfl
      · rfl
    · rw [h2]
      split
      · rfl
      · rfl
    · intro v hv
      have hv2 := h3 v hv
      revert hv2
      split
      · intro hv2
        simp only [removeVolume, List.mem_filter] at hv2
        exact hv2.1
      · exact fun hv2 => hv2

theorem dangFold_spec (pre : String) (dl : List String) :
    ∀ st : DockerState,
      ((dl.foldl (fun s v => if goHasPrefix v pre then removeVolume s v else s)
        st).containers = st.containers) ∧
      ((dl.foldl (fun s v => if goHasPrefix v pre then removeVolume s v else s)
        st).networks = st.networks) ∧
      (∀ v ∈ (dl.foldl (fun s v => if goHasPrefix v pre then removeVolume s v
          else s) st).volumes,
        v ∈ st.volumes ∧ (v ∈ dl → goHasPrefix v pre = false)) := by
  induction dl with
  | nil =>
    intro st
    exact ⟨rfl, rfl, fun v hv => ⟨hv, fun hm => absurd hm (List.not_mem_nil v)⟩⟩
  | cons d rest ih =>
    intro st
    rw [List.foldl_cons]
    rcases ih (if goHasPrefix d pre then removeVolume st d else st) with
      ⟨h1, h2, h3⟩
    refine ⟨?_, ?_, ?_⟩
    · rw [h1]
      split
      · rfl
      · rfl
    · rw [h2]
      split
      · rfl
      · rfl
    · intro v hv
      rcases h3 v hv with ⟨hv2, hv3⟩
      by_cases hd : goHasPrefix d pre = true
      · rw [if_pos hd] at hv2
        simp only [removeVolume, List.mem_filter, decide_eq_true_eq] at hv2
        refine ⟨hv2.1, ?_⟩
        intro hm
        rcases List.mem_cons.mp hm with h4 | h4
        · exact absurd h4 hv2.2
        · exact hv3 h4
      · rw [if_neg hd] at hv2
        refine ⟨hv2, ?_⟩
        intro hm
        rcases List.mem_cons.mp hm with h4 | h4
        · rw [h4]
          simpa using hd
        · exact hv3 h4

theorem mem_listDanglingVolumes (st : DockerState) (v : String) :
    v ∈ listDanglingVolumes st ↔
      v ∈ st.volumes ∧ ¬ ∃ c ∈ st.containers, v ∈ c.mounts := by
  simp [listDanglingVolumes, List.mem_filter, List.any_eq_true]

/-- After `stopContainer` on a state whose only session-labelled
containers are the tool's own (managed, this project) and in which only
such containers mount session-prefixed volumes, nothing of the session
remains: no container with the session label, no session network (and no
new network), and no volume with the session's name prefix. -/
theorem stopContainer_clean (st : DockerState) (cm : CM)
    (heph : isEphemeralSession cm.session = true)
    (hne : (stListed st cm).isEmpty = false)
    (hsess : ∀ c ∈ st.containers, c.session = cm.session →
        (c.managed = true ∧ c.project = cm.worktreeProjectName))
    (hmnt : ∀ c ∈ st.containers,
        (∀ v ∈ c.mounts, goHasPrefix v
          (cm.worktreeProjectName ++ "-" ++ cm.session ++ "-") = false) ∨
        (c.managed = true ∧ c.project = cm.worktreeProjectName ∧
          c.session = cm.session)) :
    (∀ c ∈ (stopContainer st cm).containers, c.session ≠ cm.session) ∧
    (cm.networkName ∉ (stopContainer st cm).networks) ∧
    (∀ n ∈ (stopContainer st cm).networks, n ∈ st.networks) ∧
    (∀ v ∈ (stopContainer st cm).volumes,
        goHasPrefix v (cm.worktreeProjectName ++ "-" ++ cm.session ++ "-")
          = false) := by
  have hceq : (stopContainer st cm).containers = (stAfterContainers st cm).containers := by
    rw [stopContainer_eq st cm heph hne,
      (dangFold_spec _ _ (stAfterVolumes st cm)).1]
    show (stAfterVolumes st cm).containers = _
    rw [stAfterVolumes, (volFold_spec cm cm.volumes (stAfterNetwork st cm)).1]
    rfl
  have hneq : (stopContainer st cm).networks = (stAfterNetwork st cm).networks := by
    rw [stopContainer_eq st cm heph hne,
      (dangFold_spec _ _ (stAfterVolumes st cm)).2.1]
    show (stAfterVolumes st cm).networks = _
    rw [stAfterVolumes, (volFold_spec cm cm.volumes (stAfterNetwork st cm)).2.1]
  have hsurv : ∀ c ∈ (stopContainer st cm).containers,
      c ∈ st.containers ∧ ∀ x ∈ stListed st cm, c.id ≠ x.id := by
    intro c hc
    rw [hceq] at hc
    exact mem_stAfterContainers st cm c hc
  refine ⟨?_, ?_, ?_, ?_⟩
  · intro c hc hcs
    rcases hsurv c hc with ⟨hmem, hnid⟩
    rcases hsess c hmem hcs with ⟨hm, hp⟩
    have hlist : c ∈ stListed st cm := by
      rw [stListed, mem_listProjectContainers]
      exact ⟨hmem, hm, hp, hcs⟩
    exact hnid c hlist rfl
  · rw [hneq]
    intro hmem
    simp only [stAfterNetwork, removeNetwork, List.mem_filter,
      decide_eq_true_eq] at hmem
    exact hmem.2 rfl
  · intro n hn
    rw [hneq] at hn
    simp only [stAfterNetwork, removeNetwork, List.mem_filter,
      decide_eq_true_eq] at hn
    rw [← stAfterContainers_networks st cm]
    exact hn.1
  · intro v hv
    by_contra hpre
    have hpre2 : goHasPrefix v
        (cm.worktreeProjectName ++ "-" ++ cm.session ++ "-") = true := by
      cases h : goHasPrefix v (cm.worktreeProjectName ++ "-" ++ cm.session ++ "-")
      · exact absurd h hpre
      · rfl
    rw [stopContainer_eq st cm heph hne] at hv
    rcases (dangFold_spec _ _ (stAfterVolumes st cm)).2.2 v hv with ⟨hv3, hndl⟩
    have hnotd : v ∉ listDanglingVolumes (stAfterVolumes st cm) := by
      intro hd
      rw [hndl hd] at hpre2
      cases hpre2
    rw [mem_listDanglingVolumes] at hnotd
    push_neg at hnotd
    rcases hnotd hv3 with ⟨c, hcmem, hcv⟩
    have hcmem2 : c ∈ (stAfterContainers st cm).containers := by
      have he : (stAfterVolumes st cm).containers =
          (stAfterContainers st cm).containers := by
        rw [stAfterVolumes,
          (volFold_spec cm cm.volumes (stAfterNetwork st cm)).1]
        rfl
      rw [← he]
      exact hcmem
    rcases mem_stAfterContainers st cm c hcmem2 with ⟨hmem, hnid⟩
    rcases hmnt c hmem with hclean | hlab
    · rw [hclean v hcv] at hpre2
      cases hpre2
    · have hlist : c ∈ stListed st cm := by
        rw [stListed, mem_listProjectContainers]
        exact ⟨hmem, hlab.1, hlab.2.1, hlab.2.2⟩
      exact hnid c hlist rfl

theorem containersPred_runSetup {P : ContainerInfo → Prop}
    (hP : runningInsensitive P) (st : DockerState) (cm : CM) (rid : String)
    (hfresh : ∀ sn i, P (freshInfo cm rid sn i)) :
    containersPred P st → containersPred P (runSetup st cm rid).2 := by
  intro h
  unfold runSetup
  split
  · exact h
  · unfold startFreshServices
    split
    · exact h
    · apply containersPred_startFreshLoop hP cm rid hfresh
      exact containersPred_of_eq (ensureNetwork_frame st cm).1 h

theorem containersPred_runCommand {P : ContainerInfo → Prop}
    (hP : runningInsensitive P) (st : DockerState) (cm : CM) (rid : String)
    (cds : Bool) (e : Nat)
    (hfresh : ∀ sn i, P (freshInfo cm rid sn i))
    (hshell : ∀ i, P (shellInfo cm cds i)) :
    containersPred P st → containersPred P (runCommand st cm rid cds e).2 := by
  intro h
  rw [runCommand_eq]
  apply containersPred_stopFreshServices hP
  apply containersPred_runMain hP _ cm cds (fun i _ => hshell i)
  exact containersPred_runSetup hP st cm rid hfresh h

theorem runCommand_networks (st : DockerState) (cm : CM) (rid : String)
    (cds : Bool) (e : Nat) :
    ∀ n ∈ (runCommand st cm rid cds e).2.networks,
      n ∈ st.networks ∨ n = cm.networkName := by
  intro n hn
  rw [runCommand_eq] at hn
  rw [(stopFreshServices_frame _ _).1, runMain_networks] at hn
  revert hn
  unfold runSetup
  split
  · exact fun hn => Or.inl hn
  · unfold startFreshServices
    split
    · exact fun hn => Or.inl hn
    · intro hn
      rw [(startFreshLoop_frame cm rid _ _).1] at hn
      exact ensureNetwork_networks st cm n hn

theorem clientRun_state (st : DockerState) (cm : CM) (command : List String)
    (rid : String) (cds : Bool) (e : Nat) :
    (clientRun st cm command rid cds e).2 = st ∨
    (clientRun st cm command rid cds e).2 = (runCommand st cm rid cds e).2 := by
  unfold clientRun
  split
  · exact Or.inl rfl
  · exact Or.inr rfl

theorem string_append_assoc (a b c : String) : (a ++ b) ++ c = a ++ (b ++ c) := by
  apply String.ext
  simp [String.data_append, List.append_assoc]

theorem underscore_append_ne_shell (x : String) : "_" ++ x ≠ "-shell" := by
  intro h
  have h2 := congrArg String.data h
  rw [String.data_append] at h2
  have h3 : ('_' :: x.data : List Char) =
      ('-' :: 's' :: 'h' :: 'e' :: 'l' :: 'l' :: []) := h2
  exact absurd (List.cons.inj h3).1 (by decide)

/-- A fresh per-run service container never carries the shell container's
name: past the shared prefix the service name continues with an
underscore where the shell name continues with `-shell`. -/
theorem freshServiceName_ne_containerName (cm : CM) (sn rid : String) :
    freshServiceName cm sn rid ≠ cm.containerName := by
  unfold freshServiceName CM.containerName
  by_cases hd : cm.session = "default"
  · rw [if_pos hd, if_pos hd]
    intro he
    simp only [string_append_assoc] at he
    exact underscore_append_ne_shell _ (string_append_left_cancel _ _ _ he)
  · rw [if_neg hd, if_neg hd]
    intro he
    simp only [string_append_assoc] at he
    have h1 := string_append_left_cancel _ _ _ he
    have h2 := string_append_left_cancel _ _ _ h1
    exact underscore_append_ne_shell _ (string_append_left_cancel _ _ _ h2)

theorem containerExists_eq_false_of_pred (st : DockerState) (n : String)
    (h : ∀ c ∈ st.containers, c.name ≠ n) :
    containerExists st n = false ∧ isContainerRunning st n = false := by
  constructor
  · simp only [containerExists, List.any_eq_false]
    intro c hc
    simp [h c hc]
  · simp only [isContainerRunning, List.any_eq_false]
    intro c hc
    simp [h c hc]

theorem mem_stopFreshServices_of_not_mem (ids : List Nat) :
    ∀ (st : DockerState) (c : ContainerInfo), c ∈ st.containers →
      c.id ∉ ids → c ∈ (stopFreshServices st ids).containers := by
  induction ids with
  | nil => exact fun st c hc _ => hc
  | cons i ids ih =>
    intro st c hc hn
    have h1 : c ∈ (containerStop st i).containers := by
      apply List.mem_filterMap.mpr
      refine ⟨c, hc, ?_⟩
      rw [if_neg (fun h => hn (by rw [h]; exact List.mem_cons_self _ _))]
    exact ih (containerStop st i) c h1 (fun h => hn (List.mem_cons_of_mem _ h))

theorem runSetup_ids_lt (st : DockerState) (cm : CM) (rid : String) :
    ∀ i ∈ (runSetup st cm rid).1, i < (runSetup st cm rid).2.nextId := by
  unfold runSetup
  split
  · intro i hi
    exact absurd hi (List.not_mem_nil i)
  · unfold startFreshServices
    split
    · intro i hi
      exact absurd hi (List.not_mem_nil i)
    · intro i hi
      exact ((startFreshLoop_ids_range cm rid cm.services
        (ensureNetwork st cm)).2 i hi).2

/-- C1: a `run` on an ephemeral session (no session flag, no
`ISO_SESSION`, so the id is the generated `eph-` + token) always tears
the session down after `Run`, whatever the exec's exit code: starting
from an engine holding nothing named after the fresh session (no
container labelled with it, none named like its shell container, none
mounting a volume carrying its `worktree-session-` prefix, no network or
volume already bearing its name), the post-run state has no container
with the session label, the session network is gone and no new network
was left behind, and no volume carrying the session's name prefix
remains. -/
theorem ephemeral_run_teardown (st : DockerState) (b : CMBase)
    (randToken : String) (command : List String) (runID : String)
    (cacheDirSet : Bool) (execExit : Nat)
    (hsess : ∀ c ∈ st.containers, c.session ≠ "eph-" ++ randToken)
    (hmnt : ∀ c ∈ st.containers, ∀ v ∈ c.mounts,
        goHasPrefix v (b.worktreeProjectName ++ "-" ++ ("eph-" ++ randToken)
          ++ "-") = false)
    (hname : ∀ c ∈ st.containers,
        c.name ≠ (mkCM b ("eph-" ++ randToken)).containerName)
    (hnet : (mkCM b ("eph-" ++ randToken)).networkName ∉ st.networks)
    (hvol : ∀ v ∈ st.volumes,
        goHasPrefix v (b.worktreeProjectName ++ "-" ++ ("eph-" ++ randToken)
          ++ "-") = false) :
    (∀ c ∈ (runInvocation st b "" "" randToken command runID cacheDirSet
        execExit).2.containers, c.session ≠ "eph-" ++ randToken) ∧
    ((mkCM b ("eph-" ++ randToken)).networkName ∉
      (runInvocation st b "" "" randToken command runID cacheDirSet
        execExit).2.networks) ∧
    (∀ n ∈ (runInvocation st b "" "" randToken command runID cacheDirSet
        execExit).2.networks, n ∈ st.networks) ∧
    (∀ v ∈ (runInvocation st b "" "" randToken command runID cacheDirSet
        execExit).2.volumes,
      goHasPrefix v (b.worktreeProjectName ++ "-" ++ ("eph-" ++ randToken)
        ++ "-") = false) := by
  set cm := mkCM b ("eph-" ++ randToken) with hcm
  have heph : isEphemeralSession cm.session = true :=
    goHasPrefix_append "eph-" randToken
  have hinv : (runInvocation st b "" "" randToken command runID cacheDirSet
      execExit).2 =
      stopContainer (clientRun st cm command runID cacheDirSet execExit).2 cm :=
    rfl
  by_cases hcmd : command.isEmpty = true
  · -- empty command: `Run` touches nothing, the listed group is empty,
    -- and `stopContainer` returns at its early exit leaving `st` as is
    have h1 : (clientRun st cm command runID cacheDirSet execExit).2 = st := by
      unfold clientRun
      rw [if_pos hcmd]
    have h2 : stListed st cm = [] := by
      show st.containers.filter (fun c =>
        c.managed && decide (c.project = cm.worktreeProjectName) &&
          decide (c.session = cm.session)) = []
      apply List.filter_eq_nil_iff.mpr
      intro c hc
      have hs2 : c.session ≠ cm.session := hsess c hc
      simp [hs2]
    have hemp : (stListed st cm).isEmpty = true := by
      rw [h2]
      rfl
    rw [hinv, h1, stopContainer_empty st cm hemp]
    exact ⟨fun c hc => hsess c hc, hnet, fun n hn => hn,
      fun v hv => hvol v hv⟩
  · -- non-empty command: the run phase creates the session's shell
    -- container, so the listed group is non-empty and the full teardown
    -- runs
    have h1 : (clientRun st cm command runID cacheDirSet execExit).2 =
        (runCommand st cm runID cacheDirSet execExit).2 := by
      unfold clientRun
      rw [if_neg hcmd]
    -- the session/mount invariant carried through the run phase
    have hP : runningInsensitive (fun c =>
        (c.session = cm.session →
          (c.managed = true ∧ c.project = cm.worktreeProjectName)) ∧
        ((∀ v ∈ c.mounts, goHasPrefix v
            (cm.worktreeProjectName ++ "-" ++ cm.session ++ "-") = false) ∨
          (c.managed = true ∧ c.project = cm.worktreeProjectName ∧
            c.session = cm.session))) := fun c r hp => hp
    have hbase : containersPred (fun c =>
        (c.session = cm.session →
          (c.managed = true ∧ c.project = cm.worktreeProjectName)) ∧
        ((∀ v ∈ c.mounts, goHasPrefix v
            (cm.worktreeProjectName ++ "-" ++ cm.session ++ "-") = false) ∨
          (c.managed = true ∧ c.project = cm.worktreeProjectName ∧
            c.session = cm.session))) st := by
      intro c hc
      constructor
      · intro hcs
        exact absurd hcs (hsess c hc)
      · exact Or.inl (fun v hv => hmnt c hc v hv)
    have hmid : containersPred (fun c =>
        (c.session = cm.session →
          (c.managed = true ∧ c.project = cm.worktreeProjectName)) ∧
        ((∀ v ∈ c.mounts, goHasPrefix v
            (cm.worktreeProjectName ++ "-" ++ cm.session ++ "-") = false) ∨
          (c.managed = true ∧ c.project = cm.worktreeProjectName ∧
            c.session = cm.session)))
        (runCommand st cm runID cacheDirSet execExit).2 :=
      containersPred_runCommand hP st cm runID cacheDirSet execExit
        (fun sn i => ⟨fun _ => ⟨rfl, rfl⟩, Or.inr ⟨rfl, rfl, rfl⟩⟩)
        (fun i => ⟨fun _ => ⟨rfl, rfl⟩, Or.inr ⟨rfl, rfl, rfl⟩⟩) hbase
    -- no pre-existing container bears the shell name, and the fresh
    -- service containers never do, so `runMain` creates the shell
    have hname1 : containersPred (fun c => c.name ≠ cm.containerName)
        (runSetup st cm runID).2 :=
      containersPred_runSetup (fun c r hp => hp) st cm runID
        (fun sn i => freshServiceName_ne_containerName cm sn runID)
        (fun c hc => hname c hc)
    have hex := containerExists_eq_false_of_pred (runSetup st cm runID).2
      cm.containerName hname1
    have hrm : runMain (runSetup st cm runID).2 cm cacheDirSet =
        startContainer (ensureImage (runSetup st cm runID).2 cm) cm
          cacheDirSet := by
      unfold runMain
      rw [if_neg (by rw [hex.2]; exact Bool.false_ne_true),
        if_neg (by rw [hex.1]; exact Bool.false_ne_true)]
    have hEV : (ensureVolumes (ensureImage (runSetup st cm runID).2 cm) cm
        cacheDirSet).nextId = (runSetup st cm runID).2.nextId := by
      rw [(ensureVolumes_frame (ensureImage (runSetup st cm runID).2 cm) cm
        cacheDirSet).2.2, (ensureImage_frame (runSetup st cm runID).2 cm).2.2.2]
    -- the created shell carries the session labels and its fresh id is
    -- outside the fresh-service ids, so it survives `stopFreshServices`
    have hshell : ({ shellInfo cm cacheDirSet
        ((ensureVolumes (ensureImage (runSetup st cm runID).2 cm) cm
          cacheDirSet).nextId) with running := true } : ContainerInfo) ∈
        (runCommand st cm runID cacheDirSet execExit).2.containers := by
      show _ ∈ (stopFreshServices (runMain (runSetup st cm runID).2 cm
        cacheDirSet).2 (runSetup st cm runID).1).containers
      apply mem_stopFreshServices_of_not_mem
      · rw [hrm, startContainer_state]
        apply List.mem_map.mpr
        refine ⟨shellInfo cm cacheDirSet
          ((ensureVolumes (ensureImage (runSetup st cm runID).2 cm) cm
            cacheDirSet).nextId), ?_, ?_⟩
        · exact List.mem_append.mpr (Or.inr (List.mem_singleton.mpr rfl))
        · exact if_pos rfl
      · intro hm
        have hlt : (ensureVolumes (ensureImage (runSetup st cm runID).2 cm) cm
            cacheDirSet).nextId < (runSetup st cm runID).2.nextId :=
          runSetup_ids_lt st cm runID _ hm
        rw [hEV] at hlt
        exact Nat.lt_irrefl _ hlt
    have hne1 : (stListed (runCommand st cm runID cacheDirSet execExit).2
        cm).isEmpty = false := by
      have hmm : ({ shellInfo cm cacheDirSet
          ((ensureVolumes (ensureImage (runSetup st cm runID).2 cm) cm
            cacheDirSet).nextId) with running := true } : ContainerInfo) ∈
          stListed (runCommand st cm runID cacheDirSet execExit).2 cm := by
        rw [stListed, mem_listProjectContainers]
        exact ⟨hshell, rfl, rfl, rfl⟩
      cases he2 : (stListed (runCommand st cm runID cacheDirSet execExit).2
          cm).isEmpty
      · rfl
      · rw [List.isEmpty_iff] at he2
        rw [he2] at hmm
        exact absurd hmm (List.not_mem_nil _)
    have hclean := stopContainer_clean
      (runCommand st cm runID cacheDirSet execExit).2 cm heph hne1
      (fun c hc => (hmid c hc).1) (fun c hc => (hmid c hc).2)
    rw [hinv, h1]
    refine ⟨?_, ?_, ?_, ?_⟩
    · exact fun c hc => hclean.1 c hc
    · exact hclean.2.1
    · intro n hn
      rcases runCommand_networks st cm runID cacheDirSet execExit n
        (hclean.2.2.1 n hn) with h3 | h3
      · exact h3
      · exact absurd (h3 ▸ hn) hclean.2.1
    · exact fun v hv => hclean.2.2.2 v hv

/-- Witness for C1: a concrete ephemeral `run` from the empty engine
with one configured session volume, one cache path and one declared
service leaves no container, network or volume of the session behind. -/
theorem ephemeral_run_teardown_witness :
    (∀ c ∈ (runInvocation emptyState smallBase "" "" "tok" ["make"] "r1"
        false 7).2.containers, c.session ≠ "eph-" ++ "tok") ∧
    ((mkCM smallBase ("eph-" ++ "tok")).networkName ∉
      (runInvocation emptyState smallBase "" "" "tok" ["make"] "r1"
        false 7).2.networks) ∧
    (∀ v ∈ (runInvocation emptyState smallBase "" "" "tok" ["make"] "r1"
        false 7).2.volumes,
      goHasPrefix v (smallBase.worktreeProjectName ++ "-" ++ ("eph-" ++ "tok")
        ++ "-") = false) := by
  have h := ephemeral_run_teardown emptyState smallBase "tok" ["make"] "r1"
    false 7 (by intro c hc; cases hc) (by intro c hc; cases hc)
    (by intro c hc; cases hc) (by intro h2; cases h2)
    (by intro v hv; cases hv)
  exact ⟨h.1, h.2.1, h.2.2.2⟩

end Iso
